import Mathlib

/-!
Verification of the poker-wasm equity engine.

This file shallowly embeds the Rust sources of the repository
(src/evaluation/{cards,evaluator,combinations}.rs, src/range/{holdem,omaha}.rs,
src/equity/{holdem,omaha}.rs, src/lib.rs) into Lean and proves or refutes the
frozen specification claims about them.

Modelling conventions:
* `u8`/`u16`/`u32`/`usize` card indices, table offsets and hand indices are
  modelled as `ℕ`; where a 32-bit cast to `i32` matters (`combined_p as i32`)
  the wrap-around is made explicit by `toI32`.
* `f32` weights are modelled as `ℚ`; the claims under verification are exact
  accounting identities, which is the arithmetic content of the algorithms.
* Rust panics (failed `assert!`, out-of-bounds indexing reachable in the
  source, constructor `panic!`s) are modelled by `Option`/`none`; `Result` is
  modelled by `Except String`.
* The flat `blocked_prefix` vector of `n_combos * 52` floats (written row by
  row with `copy_within`) is modelled as a list of rows, each row a function
  from card to weight; row `i` is row `i-1` with the two slots of combo `i`
  incremented, exactly as in the source.
-/

/-- Two-complement interpretation of a `u32` value as an `i32`
(`combined_p as i32` in the source). -/
def toI32 (n : ℕ) : Int :=
  if n % 4294967296 < 2147483648 then ((n % 4294967296 : ℕ) : Int)
  else ((n % 4294967296 : ℕ) : Int) - 4294967296

/-- src/evaluation/cards.rs: `cards_to_mask` — fold of `mask |= 1u64 << card`. -/
def cards_to_mask (cards : List ℕ) : ℕ :=
  cards.foldl (fun m c => m ||| (1 <<< c)) 0

/-- src/evaluation/cards.rs: `IDX2HAND` — for `i` in `0..52`, for `j` in `0..i`,
push `[j, i]`.  Pairs are modelled as `(j, i)` with `j < i`. -/
def IDX2HAND : List (ℕ × ℕ) :=
  ((List.range 52).map (fun i => (List.range i).map (fun j => (j, i)))).flatten

/-- src/evaluation/evaluator.rs: `final_p` — little-endian `u32` at byte offset
`p*4`, `0` when out of bounds.  The `% 256` make the `u8` range of the table
bytes explicit. -/
def final_p (ranksData : List ℕ) (p : ℕ) : ℕ :=
  if p * 4 + 4 ≤ ranksData.length then
    (ranksData.getD (p * 4) 0) % 256
      + ((ranksData.getD (p * 4 + 1) 0) % 256) * 256
      + ((ranksData.getD (p * 4 + 2) 0) % 256) * 65536
      + ((ranksData.getD (p * 4 + 3) 0) % 256) * 16777216
  else 0

/-- src/evaluation/evaluator.rs: `next_p(x) = final_p(x+1)`. -/
def next_p (ranksData : List ℕ) (pPlusCard : ℕ) : ℕ :=
  final_p ranksData (pPlusCard + 1)

/-- src/evaluation/evaluator.rs: `fast_eval` — fold `p ← next_p(p + card)`. -/
def fast_eval (ranksData : List ℕ) (cards : List ℕ) (p : ℕ) : ℕ :=
  cards.foldl (fun q c => next_p ranksData (q + c)) p

/-- src/evaluation/evaluator.rs: `gen_board_eval` — precompute
`board_p = fast_eval(board, 53)`, then for a hand return `combined_p as i32`
when the board has 5 cards, else `final_p(combined_p) as i32`. -/
def gen_board_eval (ranksData : List ℕ) (board : List ℕ) : List ℕ → Int :=
  let board_p := fast_eval ranksData board 53
  let board_len := board.length
  fun hand =>
    let combined_p := fast_eval ranksData hand board_p
    if board_len = 5 then toI32 combined_p else toI32 (final_p ranksData combined_p)

/-- src/range/holdem.rs: `HoldemRange` — dense weight vector (1326 slots in
every value the Rust constructors can build). -/
structure HoldemRange where
  range : List ℚ
deriving DecidableEq

/-- src/range/holdem.rs: `HoldemRange::new` — all-zero vector of 1326 weights. -/
def HoldemRange.new : HoldemRange := ⟨List.replicate 1326 0⟩

/-- src/range/holdem.rs: `HoldemRange::get_weight` — slot value, `0.0` out of
bounds. -/
def HoldemRange.get_weight (r : HoldemRange) (idx : ℕ) : ℚ :=
  if idx < r.range.length then r.range.getD idx 0 else 0

/-- src/range/holdem.rs: `HoldemRange::set` — write the slot when in bounds,
silently do nothing otherwise. -/
def HoldemRange.set (r : HoldemRange) (idx : ℕ) (weight : ℚ) : HoldemRange :=
  if idx < r.range.length then ⟨r.range.set idx weight⟩ else r

/-- src/range/holdem.rs: `HoldemRange::sort_two_cards_desc`. -/
def HoldemRange.sort_two_cards_desc (hand : ℕ × ℕ) : ℕ × ℕ :=
  if hand.1 < hand.2 then (hand.2, hand.1) else hand

/-- src/range/holdem.rs: `HoldemRange::get_hand_idx` — sort the two cards
descending, then `hand[0]*(hand[0]-1)/2 + hand[1]` (truncated `ℕ`
subtraction agrees with the release-mode wrap `0*(0-1) = 0` at `hand = (0,0)`). -/
def HoldemRange.get_hand_idx (hand : ℕ × ℕ) : ℕ :=
  let h := HoldemRange.sort_two_cards_desc hand
  h.1 * (h.1 - 1) / 2 + h.2

/-- src/range/holdem.rs: `HoldemRange::from_hand_idx` — table lookup with
fallback `[1, 0]`. -/
def HoldemRange.from_hand_idx (idx : ℕ) : ℕ × ℕ :=
  IDX2HAND.getD idx (1, 0)

/-- src/range/holdem.rs: `HoldemRange::for_each_weighted` — the (weight, index)
pairs visited by the iterator, in slot order, weights `> 0` only. -/
def HoldemRange.for_each_weighted (r : HoldemRange) : List (ℚ × ℕ) :=
  r.range.enum.filterMap (fun x => if x.2 > 0 then some (x.2, x.1) else none)

/-- src/types.rs / src/equity/blocker.rs: `Equity` triple. -/
structure Equity where
  win : ℚ
  tie : ℚ
  lose : ℚ
deriving DecidableEq

/-- src/types.rs: `EquityResult`. -/
structure EquityResult where
  combo : ℕ × ℕ
  hand_idx : ℕ
  equity : Equity
deriving DecidableEq

/-- src/equity/blocker.rs: `ComboInfo`. -/
structure ComboInfo where
  p : Int
  idx : ℕ
  self_weight : ℚ
  vs_weight : ℚ
  combo : ℕ × ℕ
deriving DecidableEq

/-- src/equity/holdem.rs lines 21-39: build `all_combos` — every combo with no
board overlap and nonzero hero or villain weight, with its rank from the
board-bound evaluator. -/
def gatherCombos (ranksData : List ℕ) (heroRange vsRange : HoldemRange)
    (board : List ℕ) : List ComboInfo :=
  let board_mask := cards_to_mask board
  let board_eval := gen_board_eval ranksData board
  IDX2HAND.enum.filterMap (fun x =>
    if board_mask.testBit x.2.1 || board_mask.testBit x.2.2 then none
    else
      let vs_weight := vsRange.range.getD x.1 0
      let self_weight := heroRange.range.getD x.1 0
      if vs_weight > 0 ∨ self_weight > 0 then
        some ⟨board_eval [x.2.1, x.2.2], x.1, self_weight, vs_weight, x.2⟩
      else none)

/-- src/equity/holdem.rs line 41: `sort_unstable_by_key(|a| a.p)`. -/
def sortCombos (l : List ComboInfo) : List ComboInfo :=
  l.mergeSort (fun a b => a.p ≤ b.p)

/-- State of the single scan over the sorted combos
(src/equity/holdem.rs lines 44-68): running villain total, its prefix list
(`weight_prefix`), current rank value, current rank-block id, the
`rank_ranges` list and the `idx_to_range_idx` array (as a map with default 0). -/
structure ScanState where
  total : ℚ
  wpref : List ℚ
  curP : Int
  curRank : Int
  ranges : List (ℕ × ℕ)
  imap : ℕ → ℕ

/-- src/equity/holdem.rs lines 53-68, one iteration per combo.  In the `else`
branch the source indexes `rank_ranges[cur_rank_idx as usize]`; when
`cur_rank_idx = -1` (first combo has rank `p = -1`) that cast wraps and the
indexing panics, modelled by `none`. -/
def scanGo : List ComboInfo → ℕ → ScanState → Option ScanState
  | [], _, st => some st
  | ci :: rest, i, st =>
    let total := st.total + ci.vs_weight
    let wpref := st.wpref ++ [total]
    if ci.p ≠ st.curP then
      scanGo rest (i + 1)
        { total := total, wpref := wpref, curP := ci.p, curRank := st.curRank + 1,
          ranges := st.ranges ++ [(i, i)],
          imap := fun j => if j = ci.idx then (st.curRank + 1).toNat else st.imap j }
    else if st.curRank < 0 then none
    else
      scanGo rest (i + 1)
        { total := total, wpref := wpref, curP := st.curP, curRank := st.curRank,
          ranges := st.ranges.set st.curRank.toNat
            ((st.ranges.getD st.curRank.toNat (0, 0)).1, i),
          imap := fun j => if j = ci.idx then st.curRank.toNat else st.imap j }

/-- Entry to the scan with the initial state of src/equity/holdem.rs lines
44-51 (`total_weight = 0`, `cur_p = -1`, `cur_rank_idx = -1`). -/
def scanCombos (l : List ComboInfo) : Option ScanState :=
  scanGo l 0 ⟨0, [], -1, -1, [], fun _ => 0⟩

/-- One row update of the blocker matrix (src/equity/holdem.rs lines 89-92):
add the combo's villain weight at its two card slots. -/
def bumpRow (row : ℕ → ℚ) (ci : ComboInfo) : ℕ → ℚ :=
  let r1 := Function.update row ci.combo.1 (row ci.combo.1 + ci.vs_weight)
  Function.update r1 ci.combo.2 (r1 ci.combo.2 + ci.vs_weight)

/-- src/equity/holdem.rs lines 70-94: the `blocked_prefix` matrix as its list
of rows; row `i` is row `i-1` (copied) with combo `i`'s two slots incremented. -/
def blockedRowsGo (prev : ℕ → ℚ) : List ComboInfo → List (ℕ → ℚ)
  | [] => []
  | ci :: rest =>
    let row := bumpRow prev ci
    row :: blockedRowsGo row rest

/-- The full blocker matrix, starting from the all-zero row. -/
def blockedRows (l : List ComboInfo) : List (ℕ → ℚ) :=
  blockedRowsGo (fun _ => 0) l

/-- src/equity/holdem.rs lines 102-156: score one hero combo from the scan
state and the blocker rows (`n` is `n_combos`). -/
def scoreCombo (ss : ScanState) (rows : List (ℕ → ℚ)) (n : ℕ)
    (ci : ComboInfo) : EquityResult :=
  let se := ss.ranges.getD (ss.imap ci.idx) (0, 0)
  let s := se.1
  let e := se.2
  let beat0 : ℚ := if s > 0 then ss.wpref.getD (s - 1) 0 else 0
  let tie0 : ℚ := ss.wpref.getD e 0 - beat0
  let after0 : ℚ := ss.total
  let step := fun (acc : ℚ × ℚ × ℚ) (c : ℕ) =>
    if n > 0 then
      let blocked := (rows.getD (n - 1) (fun _ => 0)) c
      let blockedBeat : ℚ := if s > 0 then (rows.getD (s - 1) (fun _ => 0)) c else 0
      let blockedTie : ℚ :=
        (rows.getD e (fun _ => 0)) c -
          (if s > 0 then (rows.getD (s - 1) (fun _ => 0)) c else 0)
      (acc.1 - blocked, acc.2.1 - blockedBeat, acc.2.2 - blockedTie)
    else acc
  let acc1 := [ci.combo.1, ci.combo.2].foldl step (after0, beat0, tie0)
  let dbl : ℚ := if n > 0 then ci.vs_weight else 0
  let after2 := acc1.1 + dbl
  let tie2 := acc1.2.2 + dbl
  let lose := after2 - acc1.2.1 - tie2
  ⟨ci.combo, ci.idx, ⟨acc1.2.1, tie2, lose⟩⟩

/-- src/equity/holdem.rs: `calculate_leaf_equity`.  `none` models a panic:
either the `assert!(board.len() >= 3 && board.len() <= 5)` or the rank-scan
indexing panic described at `scanGo`. -/
def calculate_leaf_equity (ranksData : List ℕ) (heroRange vsRange : HoldemRange)
    (board : List ℕ) : Option (List EquityResult) :=
  if board.length < 3 ∨ 5 < board.length then none
  else
    let sorted := sortCombos (gatherCombos ranksData heroRange vsRange board)
    match scanCombos sorted with
    | none => none
    | some ss =>
      some (((sorted.filter (fun ci => ci.self_weight ≠ 0)).map
        (scoreCombo ss (blockedRows sorted) sorted.length)))

/-- src/equity/holdem.rs lines 179-197: the full 5-card boards enumerated by
the 3-card-board aggregator (turn ascending, river above turn, both skipping
board cards). -/
def runoutBoards3 (board : List ℕ) : List (List ℕ) :=
  let board_mask := cards_to_mask board
  (List.range 52).flatMap (fun turn =>
    if board_mask.testBit turn then []
    else
      let turn_mask := board_mask ||| (1 <<< turn)
      (List.range' (turn + 1) (52 - (turn + 1))).filterMap (fun river =>
        if turn_mask.testBit river then none
        else some (board ++ [turn, river])))

/-- src/equity/holdem.rs lines 202-212: the boards enumerated by the
4-card-board aggregator. -/
def runoutBoards4 (board : List ℕ) : List (List ℕ) :=
  let board_mask := cards_to_mask board
  (List.range 52).filterMap (fun river =>
    if board_mask.testBit river then none else some (board ++ [river]))

/-- src/equity/holdem.rs lines 191-195: add one leaf result list into the
per-hand-index accumulator (`aggregated_equities`, a 1326-vector modelled as a
map). -/
def addResults (acc : ℕ → Equity) (rs : List EquityResult) : ℕ → Equity :=
  rs.foldl (fun a r => fun i =>
    if i = r.hand_idx then
      ⟨(a i).win + r.equity.win, (a i).tie + r.equity.tie, (a i).lose + r.equity.lose⟩
    else a i) acc

/-- The aggregation loop: one leaf call per enumerated board; a leaf panic
aborts the whole call. -/
def aggLoop (ranksData : List ℕ) (heroRange vsRange : HoldemRange) :
    List (List ℕ) → (ℕ → Equity) → Option (ℕ → Equity)
  | [], acc => some acc
  | b :: rest, acc =>
    match calculate_leaf_equity ranksData heroRange vsRange b with
    | none => none
    | some rs => aggLoop ranksData heroRange vsRange rest (addResults acc rs)

/-- src/equity/holdem.rs: `calculate_equity_vs_range`.  The outer `Option`
models panics inside the leaf calls, the `Except` the `Result` of the source. -/
def calculate_equity_vs_range (ranksData : List ℕ)
    (heroRange vsRange : HoldemRange) (board : List ℕ) :
    Option (Except String (List EquityResult)) :=
  if board.length < 3 ∨ 5 < board.length then
    some (Except.error "Board must have 3, 4, or 5 cards")
  else if board.length = 5 then
    (calculate_leaf_equity ranksData heroRange vsRange board).map Except.ok
  else
    let boards := if board.length = 3 then runoutBoards3 board else runoutBoards4 board
    match aggLoop ranksData heroRange vsRange boards (fun _ => ⟨0, 0, 0⟩) with
    | none => none
    | some agg =>
      some (Except.ok ((heroRange.for_each_weighted).map (fun x =>
        ⟨HoldemRange.from_hand_idx x.2, x.2, agg x.2⟩)))

/-- The specification's reference villain mass for hero combo `(c1, c2)` on
`board`: the sum of villain weights over all combos that share no card with
the hero combo and no card with the board (spec §4.4/§8.1). -/
def specVillainMass (vsRange : HoldemRange) (board : List ℕ) (hero : ℕ × ℕ) : ℚ :=
  (IDX2HAND.enum.map (fun x =>
    if x.2.1 ∉ board ∧ x.2.2 ∉ board ∧ x.2.1 ≠ hero.1 ∧ x.2.1 ≠ hero.2 ∧
        x.2.2 ≠ hero.1 ∧ x.2.2 ≠ hero.2 then
      vsRange.range.getD x.1 0
    else 0)).sum

/-- src/evaluation/combinations.rs: `HOLE_COMBOS_2_FROM_4`. -/
def HOLE_COMBOS_2_FROM_4 : List (ℕ × ℕ) :=
  [(0, 1), (0, 2), (0, 3), (1, 2), (1, 3), (2, 3)]

/-- src/evaluation/combinations.rs: `HOLE_COMBOS_2_FROM_5`. -/
def HOLE_COMBOS_2_FROM_5 : List (ℕ × ℕ) :=
  [(0, 1), (0, 2), (0, 3), (0, 4), (1, 2), (1, 3), (1, 4), (2, 3), (2, 4), (3, 4)]

/-- src/evaluation/combinations.rs: `HOLE_COMBOS_2_FROM_6`. -/
def HOLE_COMBOS_2_FROM_6 : List (ℕ × ℕ) :=
  [(0, 1), (0, 2), (0, 3), (0, 4), (0, 5), (1, 2), (1, 3), (1, 4), (1, 5),
   (2, 3), (2, 4), (2, 5), (3, 4), (3, 5), (4, 5)]

/-- src/evaluation/combinations.rs: `BOARD_COMBOS_3_FROM_5`. -/
def BOARD_COMBOS_3_FROM_5 : List (ℕ × ℕ × ℕ) :=
  [(0, 1, 2), (0, 1, 3), (0, 1, 4), (0, 2, 3), (0, 2, 4), (0, 3, 4),
   (1, 2, 3), (1, 2, 4), (1, 3, 4), (2, 3, 4)]

/-- src/range/omaha.rs: `OmahaRange` — parallel `hands`/`weights` lists with a
fixed hand size.  Each stored hand is the `[u8; 6]` array of the source,
modelled as a 6-element list (the original cards followed by zero padding). -/
structure OmahaRange where
  hands : List (List ℕ)
  weights : List ℚ
  hand_size : ℕ
deriving DecidableEq

/-- src/range/omaha.rs: `OmahaRange::new` — panics (`none`) unless the hand
size is 4, 5 or 6. -/
def OmahaRange.new (hand_size : ℕ) : Option OmahaRange :=
  if hand_size = 4 ∨ hand_size = 5 ∨ hand_size = 6 then some ⟨[], [], hand_size⟩
  else none

/-- src/range/omaha.rs: `OmahaRange::add_hand` — panics (`none`) unless the
hand has exactly `hand_size` cards; stores the hand padded with zeros to the
6-slot array and appends the weight. -/
def OmahaRange.add_hand (r : OmahaRange) (hand : List ℕ) (weight : ℚ) :
    Option OmahaRange :=
  if hand.length = r.hand_size then
    some ⟨r.hands ++ [hand ++ List.replicate (6 - hand.length) 0],
      r.weights ++ [weight], r.hand_size⟩
  else none

/-- src/range/omaha.rs: `OmahaRange::get_hand` — the first `hand_size` cards of
the stored array. -/
def OmahaRange.get_hand (r : OmahaRange) (idx : ℕ) : Option (List ℕ) :=
  (r.hands.get? idx).map (fun h => h.take r.hand_size)

/-- src/range/omaha.rs: `OmahaRange::get_hand_size`. -/
def OmahaRange.get_hand_size (r : OmahaRange) : ℕ := r.hand_size

/-- src/range/omaha.rs: `OmahaRange::iter` — (hand slice, weight) pairs, in
insertion order. -/
def OmahaRange.iterPairs (r : OmahaRange) : List (List ℕ × ℚ) :=
  (r.hands.map (fun h => h.take r.hand_size)).zip r.weights

/-- The Omaha ranges reachable through the public constructors
(`new`, then any sequence of `add_hand`). -/
inductive OmahaRange.Reachable : OmahaRange → Prop
  | of_new : ∀ n r, OmahaRange.new n = some r → OmahaRange.Reachable r
  | of_add_hand : ∀ r hand w r', OmahaRange.Reachable r →
      OmahaRange.add_hand r hand w = some r' → OmahaRange.Reachable r'

/-- src/equity/omaha.rs: `RunoutEquities`. -/
structure RunoutEquities where
  board : List ℕ
  equity : Equity
deriving DecidableEq

/-- src/equity/omaha.rs: `eval_omaha_hand` — best rank over every
(2-of-hole) × (3-of-board) sub-hand, folded from `i32::MIN`.  The `panic!` arm
for a hand size outside {4, 5, 6} is modelled by an empty combo table; every
call site validates the size first, so that arm is unreachable. -/
def eval_omaha_hand (ranksData : List ℕ) (holeCards : List ℕ)
    (board : List ℕ) : Int :=
  let hole_combos :=
    if holeCards.length = 4 then HOLE_COMBOS_2_FROM_4
    else if holeCards.length = 5 then HOLE_COMBOS_2_FROM_5
    else if holeCards.length = 6 then HOLE_COMBOS_2_FROM_6
    else []
  BOARD_COMBOS_3_FROM_5.foldl (fun best b =>
    let board_triple := [board.getD b.1 0, board.getD b.2.1 0, board.getD b.2.2 0]
    let hand_eval := gen_board_eval ranksData board_triple
    hole_combos.foldl (fun best' h =>
      max best' (hand_eval [holeCards.getD h.1 0, holeCards.getD h.2 0])) best)
    (-2147483648)

/-- src/equity/omaha.rs: `hands_overlap`. -/
def hands_overlap (hand1 hand2 : List ℕ) : Bool :=
  hand1.any (fun c1 => hand2.any (fun c2 => c1 = c2))

/-- src/equity/omaha.rs: `calculate_omaha_leaf_equity` — one hero hand vs the
range on a fixed 5-card board; villain entries overlapping hero or the board
are skipped. -/
def calculate_omaha_leaf_equity (ranksData : List ℕ) (heroHand : List ℕ)
    (vsRange : OmahaRange) (board : List ℕ) : RunoutEquities :=
  let hero_rank := eval_omaha_hand ranksData heroHand board
  let eq := vsRange.iterPairs.foldl (fun acc vw =>
    if hands_overlap heroHand vw.1 || hands_overlap vw.1 board then acc
    else
      let villain_rank := eval_omaha_hand ranksData vw.1 board
      if hero_rank > villain_rank then ⟨acc.win + vw.2, acc.tie, acc.lose⟩
      else if hero_rank = villain_rank then ⟨acc.win, acc.tie + vw.2, acc.lose⟩
      else ⟨acc.win, acc.tie, acc.lose + vw.2⟩) ⟨0, 0, 0⟩
  ⟨board, eq⟩

/-- src/equity/omaha.rs: `calculate_omaha_equity_from_turn` — one river per
card unseen by the board and by the hero hand. -/
def calculate_omaha_equity_from_turn (ranksData : List ℕ) (heroHand : List ℕ)
    (vsRange : OmahaRange) (board : List ℕ) : List RunoutEquities :=
  let used_mask := cards_to_mask board ||| cards_to_mask heroHand
  (List.range 52).filterMap (fun river =>
    if used_mask.testBit river then none
    else some (calculate_omaha_leaf_equity ranksData heroHand vsRange
      (board ++ [river])))

/-- src/equity/omaha.rs: `calculate_omaha_equity_from_flop` — all unordered
turn/river pairs over cards unseen by the board and by the hero hand. -/
def calculate_omaha_equity_from_flop (ranksData : List ℕ) (heroHand : List ℕ)
    (vsRange : OmahaRange) (board : List ℕ) : List RunoutEquities :=
  let used_mask := cards_to_mask board ||| cards_to_mask heroHand
  (List.range 52).flatMap (fun turn =>
    if used_mask.testBit turn then []
    else
      let turn_mask := used_mask ||| (1 <<< turn)
      (List.range' (turn + 1) (52 - (turn + 1))).filterMap (fun river =>
        if turn_mask.testBit river then none
        else some (calculate_omaha_leaf_equity ranksData heroHand vsRange
          (board ++ [turn, river]))))

/-- src/equity/omaha.rs: `calculate_omaha_equity_vs_range` — shape validation
then dispatch on the board length. -/
def calculate_omaha_equity_vs_range (ranksData : List ℕ) (heroHand : List ℕ)
    (vsRange : OmahaRange) (board : List ℕ) :
    Except String (List RunoutEquities) :=
  if ¬(heroHand.length = 4 ∨ heroHand.length = 5 ∨ heroHand.length = 6) then
    Except.error "Omaha hand must be 4, 5, or 6 cards"
  else if heroHand.length ≠ vsRange.get_hand_size then
    Except.error "Hero hand size must match range hand size"
  else if board.length = 3 then
    Except.ok (calculate_omaha_equity_from_flop ranksData heroHand vsRange board)
  else if board.length = 4 then
    Except.ok (calculate_omaha_equity_from_turn ranksData heroHand vsRange board)
  else if board.length = 5 then
    Except.ok [calculate_omaha_leaf_equity ranksData heroHand vsRange board]
  else Except.error "Board must be 3, 4, or 5 cards"

/-- Proof-support view of `IDX2HAND` truncated to the first `m` outer blocks. -/
def idxBlocks (m : ℕ) : List (ℕ × ℕ) :=
  ((List.range m).map (fun i => (List.range i).map (fun j => (j, i)))).flatten

/-- A Hold'em range holding exactly one combo, `idx`, with weight 1
(built as the constructors would: fresh all-zero vector, one slot set). -/
def rangeSingle (idx : ℕ) : HoldemRange :=
  ⟨(List.replicate 1326 0).set idx 1⟩

/-- The villain weight a combo contributes to the blocker row of card `c`
(`vs_weight` once per slot among the combo's two cards that equals `c`). -/
def indWeight (ci : ComboInfo) (c : ℕ) : ℚ :=
  (if c = ci.combo.1 then ci.vs_weight else 0) +
    (if c = ci.combo.2 then ci.vs_weight else 0)

/-- Total mass of an equity triple. -/
def eqMass (e : Equity) : ℚ := e.win + e.tie + e.lose

/-! ## Basic bridge lemmas -/

theorem idxBlocks_52 : IDX2HAND = idxBlocks 52 := rfl

theorem testBit_foldl_mask (l : List ℕ) (m c : ℕ) :
    ((l.foldl (fun m c => m ||| (1 <<< c)) m).testBit c) =
      (m.testBit c || decide (c ∈ l)) := by
  induction l generalizing m with
  | nil => simp
  | cons a t ih =>
    simp only [List.foldl_cons, ih, Nat.testBit_or, List.mem_cons]
    have h1 : (1 <<< a) = 2 ^ a := by
      simp [Nat.shiftLeft_eq]
    by_cases hac : a = c
    · subst hac
      simp [h1, Nat.testBit_two_pow_self]
    · have h2 : (2 ^ a).testBit c = false := Nat.testBit_two_pow_of_ne hac
      have hca : c ≠ a := fun h => hac (Eq.symm h)
      simp [h1, h2, hca]

theorem testBit_cards_to_mask (cards : List ℕ) (c : ℕ) :
    (cards_to_mask cards).testBit c = decide (c ∈ cards) := by
  have := testBit_foldl_mask cards 0 c
  simpa [cards_to_mask] using this

theorem tri_mono {k n : ℕ} (h : k ≤ n) : k * (k - 1) / 2 ≤ n * (n - 1) / 2 := by
  apply Nat.div_le_div_right
  exact Nat.mul_le_mul h (by omega)

theorem mul_pred_even (n : ℕ) : 2 ∣ n * (n - 1) := by
  rcases n with _ | k
  · simp
  · simpa [Nat.mul_comm] using (Nat.even_mul_succ_self k).two_dvd

theorem tri_succ_eq (b : ℕ) : b * (b + 1) / 2 = b * (b - 1) / 2 + b := by
  have h2 : b * (b + 1) = b * (b - 1) + 2 * b := by
    rcases b with _ | k
    · rfl
    · show (k + 1) * (k + 2) = (k + 1) * (k + 1 - 1) + 2 * (k + 1)
      simp only [Nat.add_sub_cancel]
      ring
  have heven := mul_pred_even b
  omega

theorem idxBlocks_length (m : ℕ) : (idxBlocks m).length = m * (m - 1) / 2 := by
  induction m with
  | zero => simp [idxBlocks]
  | succ n ih =>
    have hsplit : idxBlocks (n + 1) = idxBlocks n ++ (List.range n).map (fun j => (j, n)) := by
      simp [idxBlocks, List.range_succ]
    rw [hsplit, List.length_append, ih, List.length_map, List.length_range]
    have h2 := tri_succ_eq n
    have h3 : n * (n + 1) = (n + 1) * (n + 1 - 1) := by
      simp [Nat.mul_comm]
    omega

theorem idxBlocks_getElem? {m a b : ℕ} (hab : a < b) (hbm : b < m) :
    (idxBlocks m)[b * (b - 1) / 2 + a]? = some (a, b) := by
  induction m with
  | zero => omega
  | succ n ih =>
    have hsplit : idxBlocks (n + 1) = idxBlocks n ++ (List.range n).map (fun j => (j, n)) := by
      simp [idxBlocks, List.range_succ]
    rw [hsplit, List.getElem?_append]
    by_cases hbn : b < n
    · have hlt : b * (b - 1) / 2 + a < (idxBlocks n).length := by
        rw [idxBlocks_length]
        have h1 := tri_succ_eq b
        have h2 : b * (b + 1) / 2 ≤ n * (n - 1) / 2 := by
          have h3 := tri_mono (show b + 1 ≤ n by omega)
          simpa [Nat.mul_comm] using h3
        omega
      rw [if_pos hlt]
      exact ih hbn
    · have hbn' : b = n := by omega
      subst hbn'
      have hge : ¬ (b * (b - 1) / 2 + a < (idxBlocks b).length) := by
        rw [idxBlocks_length]; omega
      rw [if_neg hge, idxBlocks_length]
      have : b * (b - 1) / 2 + a - b * (b - 1) / 2 = a := by omega
      rw [this, List.getElem?_map, List.getElem?_range hab]
      rfl

theorem IDX2HAND_getElem? {a b : ℕ} (hab : a < b) (hb : b < 52) :
    IDX2HAND[b * (b - 1) / 2 + a]? = some (a, b) :=
  idxBlocks_52 ▸ idxBlocks_getElem? hab hb

theorem IDX2HAND_length : IDX2HAND.length = 1326 := by
  rw [idxBlocks_52, idxBlocks_length]

theorem IDX2HAND_mem {x : ℕ × ℕ} (hx : x ∈ IDX2HAND) : x.1 < x.2 ∧ x.2 < 52 := by
  rw [idxBlocks_52, idxBlocks] at hx
  rcases List.mem_flatten.mp hx with ⟨l, hl, hxl⟩
  rcases List.mem_map.mp hl with ⟨i, hi, rfl⟩
  rcases List.mem_map.mp hxl with ⟨j, hj, rfl⟩
  exact ⟨List.mem_range.mp hj, List.mem_range.mp hi⟩

theorem IDX2HAND_nodup : IDX2HAND.Nodup := by
  rw [idxBlocks_52, idxBlocks]
  rw [List.nodup_flatten]
  constructor
  · intro l hl
    rcases List.mem_map.mp hl with ⟨i, _, rfl⟩
    exact (List.nodup_range i).map (fun j k h => by simpa using congrArg Prod.fst h)
  · rw [List.pairwise_map]
    apply List.Pairwise.imp ?_ (List.pairwise_lt_range 52)
    intro i j hij
    intro x hxi hxj
    rcases List.mem_map.mp hxi with ⟨u, _, rfl⟩
    rcases List.mem_map.mp hxj with ⟨v, _, hv⟩
    have : j = i := by simpa using congrArg Prod.snd hv
    omega

theorem IDX2HAND_getElem?_inj {i j : ℕ} {x : ℕ × ℕ}
    (hi : IDX2HAND[i]? = some x) (hj : IDX2HAND[j]? = some x) : i = j := by
  have hi' : i < IDX2HAND.length := by
    by_contra h
    rw [List.getElem?_eq_none (by omega)] at hi
    exact Option.noConfusion hi
  have hj' : j < IDX2HAND.length := by
    by_contra h
    rw [List.getElem?_eq_none (by omega)] at hj
    exact Option.noConfusion hj
  rw [List.getElem?_eq_getElem hi'] at hi
  rw [List.getElem?_eq_getElem hj'] at hj
  exact List.Nodup.getElem_inj_iff IDX2HAND_nodup |>.mp
    (by rw [Option.some_inj.mp hi, Option.some_inj.mp hj])

theorem IDX2HAND_idx_of_getElem? {idx : ℕ} {x : ℕ × ℕ}
    (h : IDX2HAND[idx]? = some x) :
    x.1 < x.2 ∧ x.2 < 52 ∧ idx = x.2 * (x.2 - 1) / 2 + x.1 := by
  have hmem : x ∈ IDX2HAND := List.getElem?_mem h
  obtain ⟨h1, h2⟩ := IDX2HAND_mem hmem
  refine ⟨h1, h2, ?_⟩
  exact IDX2HAND_getElem?_inj h (IDX2HAND_getElem? h1 h2)

theorem get_hand_idx_sorted {a b : ℕ} (hab : a < b) :
    HoldemRange.get_hand_idx (a, b) = b * (b - 1) / 2 + a ∧
      HoldemRange.get_hand_idx (b, a) = b * (b - 1) / 2 + a := by
  constructor
  · simp [HoldemRange.get_hand_idx, HoldemRange.sort_two_cards_desc, hab]
  · have : ¬ b < a := by omega
    simp [HoldemRange.get_hand_idx, HoldemRange.sort_two_cards_desc, this]

/-! ## Claim C6 -/

/-- Claim C6: the combo-index encoding is a bijection between ordered pairs
`a < b < 52` and `[0, 1326)`: `IDX2HAND` has 1326 entries, entry
`b*(b-1)/2 + a` is `(a, b)`, `get_hand_idx` computes that index from the pair
in either card order, and `get_hand_idx` inverts `IDX2HAND` at every index. -/
theorem c6_combo_index_bijection :
    IDX2HAND.length = 1326 ∧
    (∀ a b : ℕ, a < b → b < 52 →
      IDX2HAND[b * (b - 1) / 2 + a]? = some (a, b) ∧
      HoldemRange.get_hand_idx (a, b) = b * (b - 1) / 2 + a ∧
      HoldemRange.get_hand_idx (b, a) = b * (b - 1) / 2 + a) ∧
    (∀ (idx : ℕ) (x : ℕ × ℕ), IDX2HAND[idx]? = some x →
      HoldemRange.get_hand_idx x = idx ∧
      HoldemRange.get_hand_idx (x.2, x.1) = idx) := by
  refine ⟨IDX2HAND_length, ?_, ?_⟩
  · intro a b hab hb
    obtain ⟨e1, e2⟩ := get_hand_idx_sorted hab
    exact ⟨IDX2HAND_getElem? hab hb, e1, e2⟩
  · intro idx x hx
    obtain ⟨h1, _, h3⟩ := IDX2HAND_idx_of_getElem? hx
    obtain ⟨e1, e2⟩ := get_hand_idx_sorted h1
    constructor
    · rw [show x = (x.1, x.2) from rfl, e1]; omega
    · rw [e2]; omega

/-- Witness for C6 at the pair `(50, 51)` (index 1325) and back. -/
theorem c6_combo_index_bijection_witness :
    IDX2HAND[1325]? = some (50, 51) ∧
    HoldemRange.get_hand_idx (50, 51) = 1325 ∧
    HoldemRange.get_hand_idx (51, 50) = 1325 := by
  have h := c6_combo_index_bijection.2.1 50 51 (by decide) (by decide)
  have e : 51 * (51 - 1) / 2 + 50 = 1325 := by decide
  rw [e] at h
  exact h

/-! ## Claim C9 -/

/-- Claim C9: the Hold'em leaf-equity engine is deterministic — it is a pure
function of (rank table, hero range, villain range, board), with no RNG and no
parallelism, so equal inputs give identical result lists (order and exact
values included). -/
theorem c9_leaf_equity_deterministic (rd1 rd2 : List ℕ)
    (hero1 hero2 vs1 vs2 : HoldemRange) (b1 b2 : List ℕ)
    (hrd : rd1 = rd2) (hh : hero1 = hero2) (hv : vs1 = vs2) (hb : b1 = b2) :
    calculate_leaf_equity rd1 hero1 vs1 b1 = calculate_leaf_equity rd2 hero2 vs2 b2 := by
  subst hrd; subst hh; subst hv; subst hb; rfl

/-- Witness for C9 on a concrete input pair. -/
theorem c9_leaf_equity_deterministic_witness :
    calculate_leaf_equity [] HoldemRange.new HoldemRange.new [0, 1, 2, 3, 4] =
      calculate_leaf_equity [] HoldemRange.new HoldemRange.new [0, 1, 2, 3, 4] :=
  c9_leaf_equity_deterministic [] [] HoldemRange.new HoldemRange.new
    HoldemRange.new HoldemRange.new [0, 1, 2, 3, 4] [0, 1, 2, 3, 4]
    rfl rfl rfl rfl

/-! ## Claim C10 -/

/-- Claim C10: on a `HoldemRange` (1326 slots), `set` at an index `≥ 1326`
leaves the range unchanged and signals no error, and `get_weight` at such an
index returns 0. -/
theorem c10_set_out_of_range_noop (r : HoldemRange) (idx : ℕ) (w : ℚ)
    (hlen : r.range.length = 1326) (hidx : 1326 ≤ idx) :
    r.set idx w = r ∧ r.get_weight idx = 0 := by
  constructor
  · unfold HoldemRange.set
    rw [if_neg (by omega)]
  · unfold HoldemRange.get_weight
    rw [if_neg (by omega)]

/-- Witness for C10: a fresh range, index 1326. -/
theorem c10_set_out_of_range_noop_witness :
    HoldemRange.new.set 1326 5 = HoldemRange.new ∧
      HoldemRange.new.get_weight 1326 = 0 :=
  c10_set_out_of_range_noop HoldemRange.new 1326 5
    (by rw [show HoldemRange.new.range = List.replicate 1326 (0 : ℚ) from rfl,
      List.length_replicate]) (by omega)

/-! ## Claim C8 -/

theorem omahaRange_reachable_inv {r : OmahaRange} (h : OmahaRange.Reachable r) :
    (r.hand_size = 4 ∨ r.hand_size = 5 ∨ r.hand_size = 6) ∧
      ∀ hd ∈ r.hands, hd.length = 6 := by
  induction h with
  | of_new n r hn =>
    unfold OmahaRange.new at hn
    split at hn
    · cases hn
      next hcond => exact ⟨hcond, by simp⟩
    · cases hn
  | of_add_hand r hand w r' _ hadd ih =>
    unfold OmahaRange.add_hand at hadd
    split at hadd
    · cases hadd
      next hlen =>
        refine ⟨ih.1, ?_⟩
        intro hd hhd
        rcases List.mem_append.mp hhd with h1 | h2
        · exact ih.2 hd h1
        · have : hd = hand ++ List.replicate (6 - hand.length) 0 := by
            simpa using h2
          subst this
          rw [List.length_append, List.length_replicate]
          have : hand.length ≤ 6 := by
            rcases ih.1 with h4 | h5 | h6 <;> omega
          omega
    · cases hadd

/-- Claim C8 (amended): every `OmahaRange` reachable through `new`/`add_hand`
has `hand_size ∈ {4,5,6}` and every stored hand, as observed through the
range's iterator, has exactly `hand_size` cards.  (The original claim's
"all in [0,52), all distinct within the hand" parts are not enforced by the
code — see the counterexample.) -/
theorem c8_omaha_range_invariant (r : OmahaRange) (h : OmahaRange.Reachable r) :
    (r.hand_size = 4 ∨ r.hand_size = 5 ∨ r.hand_size = 6) ∧
      ∀ p ∈ r.iterPairs, p.1.length = r.hand_size := by
  obtain ⟨hsize, hstored⟩ := omahaRange_reachable_inv h
  refine ⟨hsize, ?_⟩
  intro p hp
  rcases p with ⟨ph, pw⟩
  obtain ⟨h1, _⟩ := List.of_mem_zip (by simpa [OmahaRange.iterPairs] using hp)
  rcases List.mem_map.mp h1 with ⟨hd, hhd, rfl⟩
  rw [List.length_take, hstored hd hhd]
  rcases hsize with h4 | h5 | h6 <;> omega

/-- Counterexample for C8 as stated: `add_hand` validates only the arity, so a
reachable range can store a hand with duplicated cards and cards `≥ 52`. -/
theorem c8_omaha_range_invariant_counterexample :
    OmahaRange.Reachable ⟨[[0, 0, 60, 70, 0, 0]], [1], 4⟩ ∧
    OmahaRange.get_hand ⟨[[0, 0, 60, 70, 0, 0]], [1], 4⟩ 0 = some [0, 0, 60, 70] ∧
    ¬ (([0, 0, 60, 70] : List ℕ).Nodup ∧ ∀ c ∈ ([0, 0, 60, 70] : List ℕ), c < 52) := by
  refine ⟨?_, by decide, by decide⟩
  exact OmahaRange.Reachable.of_add_hand ⟨[], [], 4⟩ [0, 0, 60, 70] 1 _
    (OmahaRange.Reachable.of_new 4 _ (by decide)) (by decide)

/-- Witness for C8 applied to a concrete reachable range. -/
theorem c8_omaha_range_invariant_witness :
    OmahaRange.Reachable ⟨[[0, 0, 60, 70, 0, 0]], [1], 4⟩ ∧
    (([0, 0, 60, 70] : List ℕ).length =
      OmahaRange.hand_size ⟨[[0, 0, 60, 70, 0, 0]], [1], 4⟩) := by
  have hreach : OmahaRange.Reachable ⟨[[0, 0, 60, 70, 0, 0]], [1], 4⟩ :=
    OmahaRange.Reachable.of_add_hand ⟨[], [], 4⟩ [0, 0, 60, 70] 1 _
      (OmahaRange.Reachable.of_new 4 _ (by decide)) (by decide)
  refine ⟨hreach, ?_⟩
  exact (c8_omaha_range_invariant _ hreach).2 ([0, 0, 60, 70], 1) (by decide)

/-! ## Claim C7 -/

/-- Claim C7: the Omaha equity operation with board enumeration returns a
descriptive error exactly on shape violations — hero arity outside {4,5,6},
arity mismatch with the villain range, or board length outside {3,4,5} — and
returns `Ok` on every well-shaped input.  (The hypothesis `hhands` is the
`[u8; 6]` storage invariant of the Rust hand arrays.) -/
theorem c7_omaha_error_iff_shape (rd : List ℕ) (hero : List ℕ) (vs : OmahaRange)
    (board : List ℕ) (hhands : ∀ hd ∈ vs.hands, hd.length = 6) :
    (∃ rs, calculate_omaha_equity_vs_range rd hero vs board = Except.ok rs) ↔
      ((hero.length = 4 ∨ hero.length = 5 ∨ hero.length = 6) ∧
       hero.length = vs.get_hand_size ∧
       (board.length = 3 ∨ board.length = 4 ∨ board.length = 5)) := by
  clear hhands
  unfold calculate_omaha_equity_vs_range
  by_cases hA : hero.length = 4 ∨ hero.length = 5 ∨ hero.length = 6
  · rw [if_neg (not_not_intro hA)]
    by_cases hB : hero.length = vs.get_hand_size
    · rw [if_neg (not_not_intro hB)]
      by_cases h3 : board.length = 3
      · rw [if_pos h3]
        exact ⟨fun _ => ⟨hA, hB, Or.inl h3⟩, fun _ => ⟨_, rfl⟩⟩
      · rw [if_neg h3]
        by_cases h4 : board.length = 4
        · rw [if_pos h4]
          exact ⟨fun _ => ⟨hA, hB, Or.inr (Or.inl h4)⟩, fun _ => ⟨_, rfl⟩⟩
        · rw [if_neg h4]
          by_cases h5 : board.length = 5
          · rw [if_pos h5]
            exact ⟨fun _ => ⟨hA, hB, Or.inr (Or.inr h5)⟩, fun _ => ⟨_, rfl⟩⟩
          · rw [if_neg h5]
            constructor
            · rintro ⟨rs, hrs⟩; exact Except.noConfusion hrs
            · rintro ⟨_, _, hb⟩
              rcases hb with h | h | h
              · exact absurd h h3
              · exact absurd h h4
              · exact absurd h h5
    · rw [if_pos hB]
      constructor
      · rintro ⟨rs, hrs⟩; exact Except.noConfusion hrs
      · rintro ⟨_, hb, _⟩; exact absurd hb hB
  · rw [if_pos hA]
    constructor
    · rintro ⟨rs, hrs⟩; exact Except.noConfusion hrs
    · rintro ⟨ha, _, _⟩; exact absurd ha hA

/-- Witness for C7: a well-shaped PLO4 query returns `Ok`. -/
theorem c7_omaha_error_iff_shape_witness :
    ∃ rs, calculate_omaha_equity_vs_range [] [0, 1, 2, 3] ⟨[], [], 4⟩ [5, 6, 7] =
      Except.ok rs :=
  (c7_omaha_error_iff_shape [] [0, 1, 2, 3] ⟨[], [], 4⟩ [5, 6, 7]
    (by intro hd h; cases h)).mpr (by decide)

/-! ## Claim C5 -/

theorem length_filterMap_ite {α β : Type} (l : List α) (p : α → Bool) (g : α → β) :
    (l.filterMap (fun a => if p a then none else some (g a))).length =
      (l.filter (fun a => !p a)).length := by
  induction l with
  | nil => rfl
  | cons a t ih =>
    by_cases h : p a <;> simp [h, ih]

theorem filter_mem_range_length {l : List ℕ} {n : ℕ} (hnd : l.Nodup)
    (hlt : ∀ c ∈ l, c < n) :
    ((List.range n).filter (fun c => decide (c ∈ l))).length = l.length := by
  have hperm : ((List.range n).filter (fun c => decide (c ∈ l))).Perm l := by
    rw [List.perm_ext_iff_of_nodup ((List.nodup_range n).filter _) hnd]
    intro a
    constructor
    · intro ha
      exact (by simpa using (List.mem_filter.mp ha).2)
    · intro ha
      exact List.mem_filter.mpr ⟨List.mem_range.mpr (hlt a ha), by simpa using ha⟩
  exact hperm.length_eq

/-- Claim C5 (amended): the Omaha runout enumerator from the turn produces one
`RunoutEquities` per card unseen by the board *and by the hero hand* —
`52 - 4 - hero.length` of them (44 for PLO4, 43 for PLO5, 42 for PLO6), not 48. -/
theorem c5_turn_runout_count (rd : List ℕ) (hero : List ℕ) (vs : OmahaRange)
    (board : List ℕ) (hb : board.length = 4) (hnd : (board ++ hero).Nodup)
    (hlt : ∀ c ∈ board ++ hero, c < 52) :
    (calculate_omaha_equity_from_turn rd hero vs board).length =
      52 - 4 - hero.length := by
  unfold calculate_omaha_equity_from_turn
  rw [length_filterMap_ite]
  have hmask : ∀ c, ((cards_to_mask board ||| cards_to_mask hero).testBit c) =
      decide (c ∈ board ++ hero) := by
    intro c
    rw [Nat.testBit_or, testBit_cards_to_mask, testBit_cards_to_mask]
    by_cases h1 : c ∈ board <;> by_cases h2 : c ∈ hero <;>
      simp [h1, h2]
  have hfe : ((List.range 52).filter
        (fun c => !(cards_to_mask board ||| cards_to_mask hero).testBit c)).length =
      ((List.range 52).filter (fun c => !decide (c ∈ board ++ hero))).length := by
    congr 1
    apply List.filter_congr
    intro c _
    rw [hmask]
  rw [hfe]
  have hsplit := List.length_eq_countP_add_countP
    (fun c => decide (c ∈ board ++ hero)) (List.range 52)
  rw [List.countP_eq_length_filter, List.countP_eq_length_filter] at hsplit
  rw [filter_mem_range_length hnd hlt] at hsplit
  have hlen : (board ++ hero).length = 4 + hero.length := by
    rw [List.length_append, hb]
  simp only [decide_not, decide_eq_true_eq, List.length_range] at hsplit
  omega

/-- Counterexample for C5 as stated: a valid PLO4 turn query yields 44
runouts, not 48 (the enumerator also excludes the hero's four cards). -/
theorem c5_turn_runout_count_counterexample :
    (calculate_omaha_equity_from_turn [] [51, 50, 47, 46] ⟨[], [], 4⟩
      [0, 1, 2, 3]).length = 44 ∧ (44 : ℕ) ≠ 48 := by
  exact ⟨rfl, by decide⟩

/-- Witness for C5 on the same concrete PLO4 input. -/
theorem c5_turn_runout_count_witness :
    ([0, 1, 2, 3] : List ℕ).length = 4 ∧
    (([0, 1, 2, 3] ++ [51, 50, 47, 46] : List ℕ)).Nodup ∧
    (calculate_omaha_equity_from_turn [] [51, 50, 47, 46] ⟨[], [], 4⟩
      [0, 1, 2, 3]).length = 52 - 4 - ([51, 50, 47, 46] : List ℕ).length :=
  ⟨rfl, by decide,
    c5_turn_runout_count [] [51, 50, 47, 46] ⟨[], [], 4⟩ [0, 1, 2, 3]
      rfl (by decide) (by decide)⟩

/-! ## Hold'em leaf-equity engine: structural lemmas -/

theorem scanGo_total (l : List ComboInfo) :
    ∀ (i : ℕ) (st ss : ScanState), scanGo l i st = some ss →
      ss.total = st.total + (l.map ComboInfo.vs_weight).sum := by
  induction l with
  | nil =>
    intro i st ss h
    simp only [scanGo] at h
    cases h
    simp
  | cons ci rest ih =>
    intro i st ss h
    simp only [scanGo] at h
    by_cases hp : ci.p ≠ st.curP
    · rw [if_pos hp] at h
      have := ih (i + 1) _ ss h
      simp only [List.map_cons, List.sum_cons] at this ⊢
      rw [this]; ring
    · rw [if_neg hp] at h
      by_cases hr : st.curRank < 0
      · rw [if_pos hr] at h
        exact Option.noConfusion h
      · rw [if_neg hr] at h
        have := ih (i + 1) _ ss h
        simp only [List.map_cons, List.sum_cons] at this ⊢
        rw [this]; ring

theorem bumpRow_eq (row : ℕ → ℚ) (ci : ComboInfo) (c : ℕ) :
    bumpRow row ci c = row c + indWeight ci c := by
  unfold bumpRow indWeight
  simp only [Function.update_apply]
  by_cases h2 : c = ci.combo.2
  · by_cases h1 : c = ci.combo.1
    · have h21 : ci.combo.2 = ci.combo.1 := by rw [← h2, h1]
      simp [h2, h21]
      ring
    · have h21 : ¬ ci.combo.2 = ci.combo.1 := fun h => h1 (h2.trans h)
      simp [h2, h21]
  · by_cases h1 : c = ci.combo.1
    · have h12 : ¬ ci.combo.1 = ci.combo.2 := fun h => h2 (h1.trans h)
      simp [h2, h1, h12]
    · simp [h2, h1]

theorem blockedRowsGo_length (prev : ℕ → ℚ) (l : List ComboInfo) :
    (blockedRowsGo prev l).length = l.length := by
  induction l generalizing prev with
  | nil => rfl
  | cons ci rest ih => simp [blockedRowsGo, ih]

theorem blockedRowsGo_last (l : List ComboInfo) :
    ∀ (prev : ℕ → ℚ) (c : ℕ), l ≠ [] →
      (blockedRowsGo prev l).getD (l.length - 1) (fun _ => 0) c =
        prev c + (l.map (fun ci => indWeight ci c)).sum := by
  induction l with
  | nil => intro _ _ h; exact absurd rfl h
  | cons ci rest ih =>
    intro prev c _
    rcases Decidable.em (rest = []) with hr | hr
    · subst hr
      simp [blockedRowsGo, bumpRow_eq]
    · have hlen : rest.length - 1 + 1 = rest.length := by
        have := List.length_pos.mpr hr
        omega
      simp only [blockedRowsGo, List.length_cons, Nat.add_sub_cancel]
      rw [show rest.length = rest.length - 1 + 1 from hlen.symm,
        List.getD_cons_succ]
      rw [ih (bumpRow prev ci) c hr]
      rw [bumpRow_eq]
      simp only [List.map_cons, List.sum_cons]
      ring

theorem blockedRows_last {l : List ComboInfo} (hl : l ≠ []) (c : ℕ) :
    (blockedRows l).getD (l.length - 1) (fun _ => 0) c =
      (l.map (fun ci => indWeight ci c)).sum := by
  rw [blockedRows, blockedRowsGo_last l _ c hl]
  simp

theorem scoreCombo_mass (ss : ScanState) (rows : List (ℕ → ℚ)) (n : ℕ)
    (ci : ComboInfo) (hn : 0 < n) :
    eqMass (scoreCombo ss rows n ci).equity =
      ss.total - (rows.getD (n - 1) (fun _ => 0)) ci.combo.1 -
        (rows.getD (n - 1) (fun _ => 0)) ci.combo.2 + ci.vs_weight := by
  unfold scoreCombo eqMass
  simp only [List.foldl_cons, List.foldl_nil, if_pos hn]
  ring

theorem scoreCombo_combo (ss : ScanState) (rows : List (ℕ → ℚ)) (n : ℕ)
    (ci : ComboInfo) :
    (scoreCombo ss rows n ci).combo = ci.combo ∧
      (scoreCombo ss rows n ci).hand_idx = ci.idx := ⟨rfl, rfl⟩

theorem ite_none_some_eq {c1 c2 : Prop} [Decidable c1] [Decidable c2] {α : Type}
    {v x : α}
    (h : (if c1 then none else if c2 then some v else none) = some x) :
    ¬c1 ∧ c2 ∧ x = v := by
  by_cases h1 : c1
  · rw [if_pos h1] at h; exact Option.noConfusion h
  · rw [if_neg h1] at h
    by_cases h2 : c2
    · rw [if_pos h2] at h; exact ⟨h1, h2, (Option.some_inj.mp h).symm⟩
    · rw [if_neg h2] at h; exact Option.noConfusion h

theorem gatherCombos_mem {rd : List ℕ} {hero vs : HoldemRange} {board : List ℕ}
    {x : ComboInfo} (hx : x ∈ gatherCombos rd hero vs board) :
    IDX2HAND[x.idx]? = some x.combo ∧
    x.vs_weight = vs.range.getD x.idx 0 ∧
    x.self_weight = hero.range.getD x.idx 0 ∧
    (cards_to_mask board).testBit x.combo.1 = false ∧
    (cards_to_mask board).testBit x.combo.2 = false ∧
    x.p = gen_board_eval rd board [x.combo.1, x.combo.2] := by
  simp only [gatherCombos] at hx
  rcases List.mem_filterMap.mp hx with ⟨a, ha, hfa⟩
  obtain ⟨hnb, _, hxv⟩ := ite_none_some_eq hfa
  subst hxv
  simp only [Bool.or_eq_true, not_or, Bool.not_eq_true] at hnb
  exact ⟨List.mem_enum_iff_getElem?.mp ha, rfl, rfl, hnb.1, hnb.2, rfl⟩

theorem map_filterMap_sublist {α β γ : Type} (l : List α) (f : α → Option β)
    (g : β → γ) (h : α → γ) (hc : ∀ a b, f a = some b → g b = h a) :
    ((l.filterMap f).map g).Sublist (l.map h) := by
  induction l with
  | nil => simp
  | cons a t ih =>
    rw [List.filterMap_cons]
    cases hfa : f a with
    | none =>
      rw [List.map_cons]
      exact ih.cons _
    | some b =>
      rw [List.map_cons, List.map_cons, hc a b hfa]
      exact ih.cons₂ _

theorem gatherCombos_idx_nodup (rd : List ℕ) (hero vs : HoldemRange)
    (board : List ℕ) :
    ((gatherCombos rd hero vs board).map ComboInfo.idx).Nodup := by
  have hsub : ((gatherCombos rd hero vs board).map ComboInfo.idx).Sublist
      (IDX2HAND.enum.map Prod.fst) := by
    simp only [gatherCombos]
    apply map_filterMap_sublist
    intro a b hfa
    obtain ⟨_, _, hxv⟩ := ite_none_some_eq hfa
    subst hxv
    rfl
  rw [List.enum_map_fst] at hsub
  exact (List.nodup_range _).sublist hsub

theorem sum_map_sub {α : Type} (l : List α) (f g : α → ℚ) :
    (l.map (fun x => f x - g x)).sum = (l.map f).sum - (l.map g).sum := by
  induction l with
  | nil => simp
  | cons a t ih =>
    simp only [List.map_cons, List.sum_cons, ih]
    ring

theorem sum_filterMap_eq {α β : Type} (l : List α) (f : α → Option β)
    (g : β → ℚ) :
    ((l.filterMap f).map g).sum = (l.map (fun a => ((f a).map g).getD 0)).sum := by
  induction l with
  | nil => rfl
  | cons a t ih =>
    rw [List.filterMap_cons]
    cases hfa : f a with
    | none => simp [hfa, ih]
    | some b => simp [hfa, ih]

theorem sum_map_ite_key {α : Type} (l : List α) (key : α → ℕ) (g : α → ℚ)
    (hnd : (l.map key).Nodup) {a : α} (ha : a ∈ l) :
    (l.map (fun x => if key x = key a then g x else 0)).sum = g a := by
  induction l with
  | nil => cases ha
  | cons b t ih =>
    simp only [List.map_cons, List.sum_cons]
    rw [List.map_cons, List.nodup_cons] at hnd
    rcases List.mem_cons.mp ha with rfl | hat
    · rw [if_pos rfl]
      have hz : (t.map (fun x => if key x = key a then g x else 0)).sum = 0 := by
        apply List.sum_eq_zero
        intro y hy
        rcases List.mem_map.mp hy with ⟨x, hxt, rfl⟩
        rw [if_neg]
        intro hk
        exact hnd.1 (hk ▸ List.mem_map_of_mem key hxt)
      rw [hz]; ring
    · have hb : key b ≠ key a := by
        intro h
        exact hnd.1 (h ▸ List.mem_map_of_mem key hat)
      rw [if_neg hb, ih hnd.2 hat]; ring

theorem getD_zero_nonneg {l : List ℚ} (h : ∀ w ∈ l, 0 ≤ w) (i : ℕ) :
    0 ≤ l.getD i 0 := by
  rw [List.getD_eq_getElem?_getD]
  cases hx : l[i]? with
  | none => simp
  | some w =>
    simpa using h w (List.getElem?_mem hx)

theorem gather_pointwise_split (rd : List ℕ) (hero vs : HoldemRange)
    (board : List ℕ) {ci x : ComboInfo}
    (hci : ci ∈ gatherCombos rd hero vs board)
    (hx : x ∈ gatherCombos rd hero vs board) :
    x.vs_weight - indWeight x ci.combo.1 - indWeight x ci.combo.2 =
      (if x.combo.1 ∉ board ∧ x.combo.2 ∉ board ∧ x.combo.1 ≠ ci.combo.1 ∧
          x.combo.1 ≠ ci.combo.2 ∧ x.combo.2 ≠ ci.combo.1 ∧
          x.combo.2 ≠ ci.combo.2 then x.vs_weight else 0) -
        (if x.idx = ci.idx then x.vs_weight else 0) := by
  obtain ⟨hcig, _, _, _, _, _⟩ := gatherCombos_mem hci
  obtain ⟨hxg, _, _, hxb1, hxb2, _⟩ := gatherCombos_mem hx
  obtain ⟨hciord, _, _⟩ := IDX2HAND_idx_of_getElem? hcig
  obtain ⟨hxord, _, _⟩ := IDX2HAND_idx_of_getElem? hxg
  have hb1 : x.combo.1 ∉ board := by
    have := testBit_cards_to_mask board x.combo.1
    rw [hxb1] at this
    simpa using this.symm
  have hb2 : x.combo.2 ∉ board := by
    have := testBit_cards_to_mask board x.combo.2
    rw [hxb2] at this
    simpa using this.symm
  have hidx_iff : x.idx = ci.idx ↔ x.combo = ci.combo := by
    constructor
    · intro h
      rw [h, hcig] at hxg
      exact (Option.some_inj.mp hxg).symm
    · intro h
      rw [h] at hxg
      exact IDX2HAND_getElem?_inj hxg hcig
  by_cases e11 : ci.combo.1 = x.combo.1 <;>
    by_cases e12 : ci.combo.1 = x.combo.2 <;>
    by_cases e21 : ci.combo.2 = x.combo.1 <;>
    by_cases e22 : ci.combo.2 = x.combo.2
  -- impossible combinations first, then the viable ones
  all_goals (try omega)
  · -- e11, ¬e12, ¬e21, e22 : same combo
    have hcombo : x.combo = ci.combo := by
      have hxpair : x.combo = (x.combo.1, x.combo.2) := rfl
      rw [hxpair, ← e11, ← e22]
    rw [if_pos (hidx_iff.mpr hcombo)]
    rw [if_neg (by intro h; exact h.2.2.1 e11.symm)]
    unfold indWeight
    rw [if_pos e11, if_neg e12, if_neg e21, if_pos e22]
    ring
  · -- e11 only
    have hcombo : ¬ x.combo = ci.combo := by
      intro h
      rw [← h] at e22
      exact e22 rfl
    rw [if_neg (fun h => hcombo (hidx_iff.mp h))]
    rw [if_neg (by intro h; exact h.2.2.1 e11.symm)]
    unfold indWeight
    rw [if_pos e11, if_neg e12, if_neg e21, if_neg e22]
    ring
  · -- e12 only
    have hcombo : ¬ x.combo = ci.combo := by
      intro h
      rw [← h] at e11
      exact e11 rfl
    rw [if_neg (fun h => hcombo (hidx_iff.mp h))]
    rw [if_neg (by intro h; exact h.2.2.2.2.1 e12.symm)]
    unfold indWeight
    rw [if_neg e11, if_pos e12, if_neg e21, if_neg e22]
    ring
  · -- e21 only
    have hcombo : ¬ x.combo = ci.combo := by
      intro h
      rw [← h] at e11
      exact e11 rfl
    rw [if_neg (fun h => hcombo (hidx_iff.mp h))]
    rw [if_neg (by intro h; exact h.2.2.2.1 e21.symm)]
    unfold indWeight
    rw [if_neg e11, if_neg e12, if_pos e21, if_neg e22]
    ring
  · -- e22 only
    have hcombo : ¬ x.combo = ci.combo := by
      intro h
      rw [← h] at e11
      exact e11 rfl
    rw [if_neg (fun h => hcombo (hidx_iff.mp h))]
    rw [if_neg (by intro h; exact h.2.2.2.2.2 e22.symm)]
    unfold indWeight
    rw [if_neg e11, if_neg e12, if_neg e21, if_pos e22]
    ring
  · -- no shared card
    have hcombo : ¬ x.combo = ci.combo := by
      intro h
      rw [← h] at e11
      exact e11 rfl
    rw [if_neg (fun h => hcombo (hidx_iff.mp h))]
    rw [if_pos ⟨hb1, hb2, fun h => e11 h.symm, fun h => e21 h.symm,
      fun h => e12 h.symm, fun h => e22 h.symm⟩]
    unfold indWeight
    rw [if_neg e11, if_neg e12, if_neg e21, if_neg e22]
    ring

theorem gather_spec_sum (rd : List ℕ) (hero vs : HoldemRange) (board : List ℕ)
    (hnneg : ∀ w ∈ vs.range, 0 ≤ w) (hcombo : ℕ × ℕ) :
    ((gatherCombos rd hero vs board).map (fun x =>
      if x.combo.1 ∉ board ∧ x.combo.2 ∉ board ∧ x.combo.1 ≠ hcombo.1 ∧
          x.combo.1 ≠ hcombo.2 ∧ x.combo.2 ≠ hcombo.1 ∧ x.combo.2 ≠ hcombo.2
        then x.vs_weight else 0)).sum = specVillainMass vs board hcombo := by
  simp only [gatherCombos]
  rw [sum_filterMap_eq]
  unfold specVillainMass
  congr 1
  apply List.map_congr_left
  intro a _
  by_cases hblk : ((cards_to_mask board).testBit a.2.1 ||
      (cards_to_mask board).testBit a.2.2) = true
  · rw [if_pos hblk]
    have hmem : a.2.1 ∈ board ∨ a.2.2 ∈ board := by
      rcases Bool.or_eq_true_iff.mp hblk with h | h
      · left
        have := testBit_cards_to_mask board a.2.1
        rw [h] at this
        simpa using this.symm
      · right
        have := testBit_cards_to_mask board a.2.2
        rw [h] at this
        simpa using this.symm
    rw [if_neg (by rintro ⟨hb1, hb2, _⟩; rcases hmem with h | h
                   · exact hb1 h
                   · exact hb2 h)]
    rfl
  · rw [if_neg hblk]
    by_cases hw : (vs.range.getD a.1 0 > 0 ∨ hero.range.getD a.1 0 > 0)
    · rw [if_pos hw]
      rfl
    · rw [if_neg hw]
      have hv0 : vs.range.getD a.1 0 = 0 := by
        rcases not_or.mp hw with ⟨h1, _⟩
        exact le_antisymm (not_lt.mp h1) (getD_zero_nonneg hnneg a.1)
      rw [hv0]
      simp

theorem leaf_result_mass (rd : List ℕ) (hero vs : HoldemRange) (board : List ℕ)
    (hnneg : ∀ w ∈ vs.range, 0 ≤ w) {rs : List EquityResult} {r : EquityResult}
    (hok : calculate_leaf_equity rd hero vs board = some rs) (hr : r ∈ rs) :
    eqMass r.equity = specVillainMass vs board r.combo := by
  simp only [calculate_leaf_equity] at hok
  by_cases hblen : (board.length < 3 ∨ 5 < board.length)
  · rw [if_pos hblen] at hok; exact Option.noConfusion hok
  rw [if_neg hblen] at hok
  cases hscan : scanCombos (sortCombos (gatherCombos rd hero vs board)) with
  | none =>
    rw [hscan] at hok
    exact Option.noConfusion hok
  | some ss =>
    rw [hscan] at hok
    have hrs : ((sortCombos (gatherCombos rd hero vs board)).filter
        (fun ci => ci.self_weight ≠ 0)).map
          (scoreCombo ss (blockedRows (sortCombos (gatherCombos rd hero vs board)))
            (sortCombos (gatherCombos rd hero vs board)).length) = rs :=
      Option.some_inj.mp hok
    rw [← hrs] at hr
    rcases List.mem_map.mp hr with ⟨ci, hcif, hre⟩
    subst hre
    have hciL : ci ∈ sortCombos (gatherCombos rd hero vs board) :=
      List.mem_of_mem_filter hcif
    have hperm : (sortCombos (gatherCombos rd hero vs board)).Perm
        (gatherCombos rd hero vs board) := List.mergeSort_perm _ _
    have hciG : ci ∈ gatherCombos rd hero vs board := hperm.mem_iff.mp hciL
    have hnil : sortCombos (gatherCombos rd hero vs board) ≠ [] :=
      List.ne_nil_of_mem hciL
    have hn : 0 < (sortCombos (gatherCombos rd hero vs board)).length :=
      List.length_pos.mpr hnil
    rw [scoreCombo_mass _ _ _ _ hn, (scoreCombo_combo _ _ _ _).1]
    rw [blockedRows_last hnil, blockedRows_last hnil]
    have htot : ss.total =
        ((sortCombos (gatherCombos rd hero vs board)).map ComboInfo.vs_weight).sum := by
      unfold scanCombos at hscan
      have := scanGo_total _ 0 _ _ hscan
      simpa using this
    rw [htot]
    rw [(hperm.map ComboInfo.vs_weight).sum_eq,
      (hperm.map (fun x => indWeight x ci.combo.1)).sum_eq,
      (hperm.map (fun x => indWeight x ci.combo.2)).sum_eq]
    have hsplit := List.map_congr_left
      (fun x hx => gather_pointwise_split rd hero vs board hciG hx)
    rw [show ((gatherCombos rd hero vs board).map ComboInfo.vs_weight).sum -
          ((gatherCombos rd hero vs board).map (fun x => indWeight x ci.combo.1)).sum -
          ((gatherCombos rd hero vs board).map (fun x => indWeight x ci.combo.2)).sum =
        ((gatherCombos rd hero vs board).map (fun x =>
          x.vs_weight - indWeight x ci.combo.1 - indWeight x ci.combo.2)).sum from by
      rw [sum_map_sub (gatherCombos rd hero vs board)
          (fun x => x.vs_weight - indWeight x ci.combo.1)
          (fun x => indWeight x ci.combo.2),
        sum_map_sub (gatherCombos rd hero vs board)
          (fun x => x.vs_weight) (fun x => indWeight x ci.combo.1)]]
    rw [hsplit]
    rw [sum_map_sub (gatherCombos rd hero vs board)
        (fun x => if x.combo.1 ∉ board ∧ x.combo.2 ∉ board ∧
            x.combo.1 ≠ ci.combo.1 ∧ x.combo.1 ≠ ci.combo.2 ∧
            x.combo.2 ≠ ci.combo.1 ∧ x.combo.2 ≠ ci.combo.2 then
          x.vs_weight else 0)
        (fun x => if x.idx = ci.idx then x.vs_weight else 0)]
    rw [sum_map_ite_key (gatherCombos rd hero vs board) ComboInfo.idx
      ComboInfo.vs_weight (gatherCombos_idx_nodup rd hero vs board) hciG]
    rw [gather_spec_sum rd hero vs board hnneg ci.combo]
    ring

/-! ## Claim C1 -/

/-- Claim C1: for every hero range, villain range and 5-card board of distinct
cards in [0,52), every EquityResult returned by the Hold'em leaf-equity engine
satisfies `win + tie + lose = Σ villain weights over combos sharing no card
with the hero combo and no card with the board`. -/
theorem c1_mass_conservation (rd : List ℕ) (hero vs : HoldemRange)
    (board : List ℕ) (hb : board.length = 5) (hnd : board.Nodup)
    (hcards : ∀ c ∈ board, c < 52)
    (hherolen : hero.range.length = 1326) (hvslen : vs.range.length = 1326)
    (hnneg : ∀ w ∈ vs.range, 0 ≤ w)
    (rs : List EquityResult) (r : EquityResult)
    (hok : calculate_leaf_equity rd hero vs board = some rs) (hr : r ∈ rs) :
    r.equity.win + r.equity.tie + r.equity.lose =
      specVillainMass vs board r.combo := by
  have h := leaf_result_mass rd hero vs board hnneg hok hr
  simpa [eqMass] using h

/-! ## Singleton-range computations -/

theorem rangeSingle_length (i : ℕ) : (rangeSingle i).range.length = 1326 := by
  rw [show (rangeSingle i).range = (List.replicate 1326 (0 : ℚ)).set i 1 from rfl,
    List.length_set, List.length_replicate]

theorem getD_rangeSingle (i j : ℕ) (hi : i < 1326) :
    (rangeSingle i).range.getD j 0 = if j = i then 1 else 0 := by
  unfold rangeSingle
  rw [List.getD_eq_getElem?_getD]
  by_cases hj : j = i
  · subst hj
    rw [List.getElem?_set_self (by rw [List.length_replicate]; exact hi)]
    simp
  · rw [List.getElem?_set_ne (fun h => hj h.symm), List.getElem?_replicate]
    by_cases hlt : j < 1326 <;> simp [hlt, hj]

theorem rangeSingle_nonneg (i : ℕ) : ∀ w ∈ (rangeSingle i).range, 0 ≤ w := by
  intro w hw
  unfold rangeSingle at hw
  rcases List.mem_or_eq_of_mem_set hw with h | h
  · rw [List.eq_of_mem_replicate h]
  · rw [h]; norm_num

theorem getD_new_zero (j : ℕ) : HoldemRange.new.range.getD j 0 = 0 := by
  unfold HoldemRange.new
  rw [List.getD_eq_getElem?_getD, List.getElem?_replicate]
  by_cases hlt : j < 1326 <;> simp [hlt]

theorem filterMap_eq_filterMap_filter {α β : Type} (l : List α)
    (f : α → Option β) (p : α → Bool)
    (h : ∀ a ∈ l, p a = false → f a = none) :
    l.filterMap f = (l.filter p).filterMap f := by
  induction l with
  | nil => rfl
  | cons a t ih =>
    rw [List.filter_cons]
    cases hp : p a with
    | true =>
      rw [if_pos rfl, List.filterMap_cons, List.filterMap_cons]
      cases f a with
      | none => exact ih (fun b hb => h b (List.mem_cons_of_mem a hb))
      | some x => rw [ih (fun b hb => h b (List.mem_cons_of_mem a hb))]
    | false =>
      rw [if_neg (by simp)]
      rw [List.filterMap_cons, h a (List.mem_cons_self a t) hp]
      exact ih (fun b hb => h b (List.mem_cons_of_mem a hb))

theorem decide_or_mem (u v : ℕ) (board : List ℕ) :
    (decide (u ∈ board) || decide (v ∈ board)) = decide (u ∈ board ∨ v ∈ board) := by
  by_cases h1 : u ∈ board <;> by_cases h2 : v ∈ board <;> simp [h1, h2]

set_option maxRecDepth 4000 in
theorem enum_filter_1325 :
    IDX2HAND.enum.filter (fun a => decide (a.1 = 1325)) = [(1325, (50, 51))] := by
  decide

set_option maxRecDepth 4000 in
theorem enum_filter_1127_1325 :
    IDX2HAND.enum.filter (fun a => decide (a.1 = 1127 ∨ a.1 = 1325)) =
      [(1127, (46, 47)), (1325, (50, 51))] := by
  decide

theorem gather_mirror_AA (rd : List ℕ) (board : List ℕ) :
    gatherCombos rd (rangeSingle 1325) (rangeSingle 1325) board =
      if 50 ∈ board ∨ 51 ∈ board then []
      else [⟨gen_board_eval rd board [50, 51], 1325, 1, 1, (50, 51)⟩] := by
  simp only [gatherCombos]
  rw [filterMap_eq_filterMap_filter IDX2HAND.enum _
    (fun a => decide (a.1 = 1325)) ?side]
  case side =>
    intro a _ hpa
    simp only [decide_eq_false_iff_not] at hpa
    by_cases hblk : ((cards_to_mask board).testBit a.2.1 ||
        (cards_to_mask board).testBit a.2.2) = true
    · rw [if_pos hblk]
    · rw [if_neg hblk, getD_rangeSingle 1325 a.1 (by norm_num)]
      rw [if_neg (show ¬ ((if a.1 = 1325 then (1 : ℚ) else 0) > 0 ∨
        (if a.1 = 1325 then (1 : ℚ) else 0) > 0) from by simp [hpa])]
  rw [enum_filter_1325]
  simp only [List.filterMap_cons, List.filterMap_nil]
  rw [testBit_cards_to_mask, testBit_cards_to_mask, decide_or_mem,
    getD_rangeSingle 1325 1325 (by norm_num)]
  simp only [decide_eq_true_eq]
  by_cases hb : 50 ∈ board ∨ 51 ∈ board <;> simp [hb]

theorem gather_AA_vs_KK (rd : List ℕ) (board : List ℕ) :
    gatherCombos rd (rangeSingle 1325) (rangeSingle 1127) board =
      (if 46 ∈ board ∨ 47 ∈ board then []
       else [⟨gen_board_eval rd board [46, 47], 1127, 0, 1, (46, 47)⟩]) ++
      (if 50 ∈ board ∨ 51 ∈ board then []
       else [⟨gen_board_eval rd board [50, 51], 1325, 1, 0, (50, 51)⟩]) := by
  simp only [gatherCombos]
  rw [filterMap_eq_filterMap_filter IDX2HAND.enum _
    (fun a => decide (a.1 = 1127 ∨ a.1 = 1325)) ?side]
  case side =>
    intro a _ hpa
    simp only [decide_eq_false_iff_not, not_or] at hpa
    by_cases hblk : ((cards_to_mask board).testBit a.2.1 ||
        (cards_to_mask board).testBit a.2.2) = true
    · rw [if_pos hblk]
    · rw [if_neg hblk, getD_rangeSingle 1127 a.1 (by norm_num),
        getD_rangeSingle 1325 a.1 (by norm_num)]
      rw [if_neg (show ¬ ((if a.1 = 1127 then (1 : ℚ) else 0) > 0 ∨
        (if a.1 = 1325 then (1 : ℚ) else 0) > 0) from by simp [hpa.1, hpa.2])]
  rw [enum_filter_1127_1325]
  simp only [List.filterMap_cons, List.filterMap_nil]
  rw [testBit_cards_to_mask, testBit_cards_to_mask, testBit_cards_to_mask,
    testBit_cards_to_mask, decide_or_mem, decide_or_mem,
    getD_rangeSingle 1127 1127 (by norm_num),
    getD_rangeSingle 1325 1127 (by norm_num),
    getD_rangeSingle 1127 1325 (by norm_num),
    getD_rangeSingle 1325 1325 (by norm_num)]
  simp only [decide_eq_true_eq]
  by_cases hb1 : 46 ∈ board ∨ 47 ∈ board <;>
    by_cases hb2 : 50 ∈ board ∨ 51 ∈ board <;>
      simp [hb1, hb2]

theorem scanGo_isSome (l : List ComboInfo) :
    ∀ (i : ℕ) (st : ScanState),
      (-1 ≤ st.curRank ∧ (st.curRank < 0 → st.curP = -1)) →
      (∀ ci ∈ l, ci.p ≠ -1) → ∃ ss, scanGo l i st = some ss := by
  induction l with
  | nil => intro i st _ _; exact ⟨st, rfl⟩
  | cons ci rest ih =>
    intro i st hinv hp
    simp only [scanGo]
    by_cases hc : ci.p ≠ st.curP
    · rw [if_pos hc]
      refine ih (i + 1) _ ⟨?_, ?_⟩
        (fun x hx => hp x (List.mem_cons_of_mem ci hx))
      · show -1 ≤ st.curRank + 1
        omega
      · show st.curRank + 1 < 0 → _
        intro h
        exact absurd h (by omega)
    · rw [if_neg hc]
      push_neg at hc
      have hnr : ¬ st.curRank < 0 := by
        intro hlt
        exact hp ci (List.mem_cons_self ci rest) (hc.trans (hinv.2 hlt))
      rw [if_neg hnr]
      refine ih (i + 1) _ ⟨?_, ?_⟩
        (fun x hx => hp x (List.mem_cons_of_mem ci hx))
      · show -1 ≤ st.curRank
        omega
      · show st.curRank < 0 → _
        intro h
        exact absurd h hnr

theorem scanCombos_isSome {l : List ComboInfo} (hp : ∀ ci ∈ l, ci.p ≠ -1) :
    ∃ ss, scanCombos l = some ss :=
  scanGo_isSome l 0 _ ⟨by norm_num, fun _ => rfl⟩ hp

theorem leaf_isSome (rd : List ℕ) (hero vs : HoldemRange) (board : List ℕ)
    (hlen : 3 ≤ board.length ∧ board.length ≤ 5)
    (hp : ∀ ci ∈ sortCombos (gatherCombos rd hero vs board), ci.p ≠ -1) :
    ∃ rs, calculate_leaf_equity rd hero vs board = some rs := by
  obtain ⟨ss, hss⟩ := scanCombos_isSome hp
  refine ⟨((sortCombos (gatherCombos rd hero vs board)).filter
      (fun ci => ci.self_weight ≠ 0)).map
      (scoreCombo ss (blockedRows (sortCombos (gatherCombos rd hero vs board)))
        (sortCombos (gatherCombos rd hero vs board)).length), ?_⟩
  simp only [calculate_leaf_equity]
  rw [if_neg (by omega), hss]

theorem sortCombos_perm (l : List ComboInfo) : (sortCombos l).Perm l :=
  List.mergeSort_perm l _

theorem sortCombos_nil : sortCombos [] = [] := by
  simp [sortCombos]

theorem sortCombos_singleton (ci : ComboInfo) : sortCombos [ci] = [ci] := by
  simp [sortCombos]

/-! ## Claim C4 -/

/-- Claim C4 (amended): the Hold'em leaf-equity operation panics exactly when
the board length is outside {3,4,5} (the source asserts `3 <= len <= 5`, not
`len == 5`); on a board of length 3, 4 or 5 it returns a result list, provided
no gathered combo has rank value -1 (a rank of -1 makes the rank-block scan
index `rank_ranges[(-1) as usize]` and panic, which no shape check prevents). -/
theorem c4_leaf_failure_condition (rd : List ℕ) (hero vs : HoldemRange)
    (board : List ℕ) :
    ((board.length < 3 ∨ 5 < board.length) →
      calculate_leaf_equity rd hero vs board = none) ∧
    (3 ≤ board.length → board.length ≤ 5 →
      (∀ ci ∈ sortCombos (gatherCombos rd hero vs board), ci.p ≠ -1) →
      ∃ rs, calculate_leaf_equity rd hero vs board = some rs) := by
  constructor
  · intro h
    simp only [calculate_leaf_equity]
    rw [if_pos h]
  · intro h1 h2 hp
    exact leaf_isSome rd hero vs board ⟨h1, h2⟩ hp

theorem gather_new_new (rd : List ℕ) (board : List ℕ) :
    gatherCombos rd HoldemRange.new HoldemRange.new board = [] := by
  simp only [gatherCombos]
  rw [List.filterMap_eq_nil]
  intro a _
  by_cases hblk : ((cards_to_mask board).testBit a.2.1 ||
      (cards_to_mask board).testBit a.2.2) = true
  · rw [if_pos hblk]
  · rw [if_neg hblk, getD_new_zero]
    rw [if_neg (by norm_num)]

theorem leaf_new_new (rd : List ℕ) (board : List ℕ)
    (hlen : 3 ≤ board.length ∧ board.length ≤ 5) :
    calculate_leaf_equity rd HoldemRange.new HoldemRange.new board = some [] := by
  simp only [calculate_leaf_equity]
  rw [if_neg (by omega), gather_new_new, sortCombos_nil]
  rfl

/-- Counterexample for C4 as stated: a 3-card board does not fail — the
operation returns a (here empty) result list. -/
theorem c4_leaf_failure_condition_counterexample :
    calculate_leaf_equity [] HoldemRange.new HoldemRange.new [0, 1, 2] =
      some [] ∧ ([0, 1, 2] : List ℕ).length ≠ 5 :=
  ⟨leaf_new_new [] [0, 1, 2] (by constructor <;> decide), by decide⟩

/-- Witness for C4: a 2-card board fails; a 3-card board succeeds. -/
theorem c4_leaf_failure_condition_witness :
    calculate_leaf_equity [] HoldemRange.new HoldemRange.new [0, 1] = none ∧
    ∃ rs, calculate_leaf_equity [] HoldemRange.new HoldemRange.new [3, 4, 5] =
      some rs := by
  constructor
  · exact (c4_leaf_failure_condition [] HoldemRange.new HoldemRange.new
      [0, 1]).1 (by decide)
  · exact (c4_leaf_failure_condition [] HoldemRange.new HoldemRange.new
      [3, 4, 5]).2 (by decide) (by decide)
      (by rw [gather_new_new, sortCombos_nil]; intro ci h; cases h)

theorem scanCombos_singleton_eq (ci : ComboInfo) (hp : ci.p ≠ -1) :
    scanCombos [ci] = some ⟨ci.vs_weight, [ci.vs_weight], ci.p, 0,
      [(0, 0)], fun j => if j = ci.idx then 0 else 0⟩ := by
  show scanGo [ci] 0 _ = _
  simp only [scanGo]
  rw [if_pos hp]
  refine congrArg some ?_
  rw [ScanState.mk.injEq]
  exact ⟨by ring, by norm_num, rfl, by decide, by simp,
    by funext j; by_cases hj : j = ci.idx <;> simp [hj]⟩

theorem scoreCombo_single (ss : ScanState) (ci : ComboInfo)
    (htot : ss.total = ci.vs_weight) (hwp : ss.wpref = [ci.vs_weight])
    (hrg : ss.ranges = [(0, 0)]) (him : ss.imap ci.idx = 0)
    (hcc : ci.combo.1 ≠ ci.combo.2) :
    scoreCombo ss (blockedRows [ci]) 1 ci = ⟨ci.combo, ci.idx, ⟨0, 0, 0⟩⟩ := by
  unfold scoreCombo
  rw [him, hrg, htot, hwp]
  simp only [blockedRows, blockedRowsGo, List.getD_cons_zero,
    List.foldl_cons, List.foldl_nil]
  norm_num [bumpRow_eq, indWeight, hcc, Ne.symm hcc]

theorem leaf_mirror_AA (rd : List ℕ) (board : List ℕ) (hb : board.length = 5)
    (h50 : 50 ∉ board) (h51 : 51 ∉ board)
    (hp : gen_board_eval rd board [50, 51] ≠ -1) :
    calculate_leaf_equity rd (rangeSingle 1325) (rangeSingle 1325) board =
      some [⟨(50, 51), 1325, ⟨0, 0, 0⟩⟩] := by
  simp only [calculate_leaf_equity]
  rw [if_neg (by omega)]
  rw [gather_mirror_AA, if_neg (show ¬ (50 ∈ board ∨ 51 ∈ board) from by
    rintro (h | h)
    · exact h50 h
    · exact h51 h)]
  rw [sortCombos_singleton, scanCombos_singleton_eq _ hp]
  show some _ = some _
  refine congrArg some ?_
  rw [show ([⟨gen_board_eval rd board [50, 51], 1325, (1 : ℚ), 1, (50, 51)⟩] :
      List ComboInfo).filter (fun ci => ci.self_weight ≠ 0) =
    [⟨gen_board_eval rd board [50, 51], 1325, 1, 1, (50, 51)⟩] from by
      norm_num [List.filter]]
  rw [List.map_cons, List.map_nil]
  simp only [List.length_singleton]
  rw [scoreCombo_single _ _ rfl rfl rfl (by simp)
    (show (50 : ℕ) ≠ 51 by decide)]

/-! ## Claim C2 -/

/-- Claim C2 (amended): with hero range = villain range = {AsAh : 1.0} and a
5-card board containing neither As nor Ah, the leaf engine returns exactly one
EquityResult with `win = 0`, `tie = 0`, `lose = 0` — not `tie = 1`: the
hero's own villain weight cancels out of the tie bucket (subtracted once per
hero card by the blocker correction, added back once), which is what mass
conservation (C1) requires, since the only villain combo shares both cards
with hero.  The rank-value hypothesis rules out the scan panic, which no real
rank table triggers. -/
theorem c2_mirror_self_tie_zero (rd : List ℕ) (board : List ℕ)
    (hb : board.length = 5) (h50 : 50 ∉ board) (h51 : 51 ∉ board)
    (hp : gen_board_eval rd board [50, 51] ≠ -1) :
    calculate_leaf_equity rd (rangeSingle 1325) (rangeSingle 1325) board =
      some [⟨(50, 51), 1325, ⟨0, 0, 0⟩⟩] :=
  leaf_mirror_AA rd board hb h50 h51 hp

/-- Counterexample for C2 as stated: on board `[0,1,2,3,4]` the single output
entry has tie = 0, not tie = 1. -/
theorem c2_mirror_self_tie_zero_counterexample :
    calculate_leaf_equity [] (rangeSingle 1325) (rangeSingle 1325)
      [0, 1, 2, 3, 4] = some [⟨(50, 51), 1325, ⟨0, 0, 0⟩⟩] ∧
    (⟨0, 0, 0⟩ : Equity) ≠ ⟨0, 1, 0⟩ :=
  ⟨leaf_mirror_AA [] [0, 1, 2, 3, 4] rfl (by decide) (by decide) (by decide),
    by decide⟩

/-- Witness for C2 on the concrete board `[5,6,7,8,9]`. -/
theorem c2_mirror_self_tie_zero_witness :
    calculate_leaf_equity [] (rangeSingle 1325) (rangeSingle 1325)
      [5, 6, 7, 8, 9] = some [⟨(50, 51), 1325, ⟨0, 0, 0⟩⟩] :=
  c2_mirror_self_tie_zero [] [5, 6, 7, 8, 9] rfl (by decide) (by decide)
    (by decide)

/-- Witness for C1: the mirror-AA input on board `[0,1,2,3,4]`; the single
result's mass equals the reference villain mass (here 0, since the only
villain combo shares both cards with hero). -/
theorem c1_mass_conservation_witness :
    calculate_leaf_equity [] (rangeSingle 1325) (rangeSingle 1325)
      [0, 1, 2, 3, 4] = some [⟨(50, 51), 1325, ⟨0, 0, 0⟩⟩] ∧
    (0 : ℚ) + 0 + 0 =
      specVillainMass (rangeSingle 1325) [0, 1, 2, 3, 4] (50, 51) := by
  have hok := leaf_mirror_AA [] [0, 1, 2, 3, 4] rfl (by decide) (by decide)
    (by decide)
  refine ⟨hok, ?_⟩
  have h := c1_mass_conservation [] (rangeSingle 1325) (rangeSingle 1325)
    [0, 1, 2, 3, 4] rfl (by decide) (by decide) (rangeSingle_length 1325)
    (rangeSingle_length 1325) (rangeSingle_nonneg 1325) _ _ hok
    (List.mem_singleton.mpr rfl)
  simpa using h

/-! ## Claim C3: support -/

theorem runoutBoards3_mem_length {board b : List ℕ}
    (hb : b ∈ runoutBoards3 board) : b.length = board.length + 2 := by
  simp only [runoutBoards3] at hb
  rcases List.mem_flatMap.mp hb with ⟨turn, _, hbt⟩
  by_cases hm : (cards_to_mask board).testBit turn = true
  · rw [if_pos hm] at hbt
    cases hbt
  · rw [if_neg hm] at hbt
    rcases List.mem_filterMap.mp hbt with ⟨river, _, hfr⟩
    by_cases hm2 : ((cards_to_mask board ||| (1 <<< turn)).testBit river) = true
    · rw [if_pos hm2] at hfr
      exact Option.noConfusion hfr
    · rw [if_neg hm2] at hfr
      have hbe : board ++ [turn, river] = b := Option.some_inj.mp hfr
      rw [← hbe, List.length_append]
      rfl

theorem sum_map_indicator {α : Type} (l : List α) (P : α → Prop)
    [DecidablePred P] :
    (l.map (fun a => if P a then (1 : ℚ) else 0)).sum =
      (l.countP (fun a => decide (P a)) : ℚ) := by
  induction l with
  | nil => simp
  | cons a t ih =>
    by_cases h : P a <;>
      simp only [List.map_cons, List.sum_cons, List.countP_cons, h, ih] <;>
      norm_num <;> ring

theorem specVillainMass_single (i u v : ℕ) (board : List ℕ) (hero : ℕ × ℕ)
    (hget : IDX2HAND[i]? = some (u, v)) :
    specVillainMass (rangeSingle i) board hero =
      if u ∉ board ∧ v ∉ board ∧ u ≠ hero.1 ∧ u ≠ hero.2 ∧ v ≠ hero.1 ∧
          v ≠ hero.2 then 1 else 0 := by
  have hi : i < 1326 := by
    have hlt : i < IDX2HAND.length := by
      by_contra h
      rw [List.getElem?_eq_none (by omega)] at hget
      exact Option.noConfusion hget
    rw [IDX2HAND_length] at hlt
    exact hlt
  unfold specVillainMass
  have hpt : ∀ a ∈ IDX2HAND.enum,
      (if a.2.1 ∉ board ∧ a.2.2 ∉ board ∧ a.2.1 ≠ hero.1 ∧ a.2.1 ≠ hero.2 ∧
          a.2.2 ≠ hero.1 ∧ a.2.2 ≠ hero.2 then
        (rangeSingle i).range.getD a.1 0 else 0) =
      (if Prod.fst a = Prod.fst ((i, (u, v)) : ℕ × ℕ × ℕ) then
        (if a.2.1 ∉ board ∧ a.2.2 ∉ board ∧ a.2.1 ≠ hero.1 ∧ a.2.1 ≠ hero.2 ∧
            a.2.2 ≠ hero.1 ∧ a.2.2 ≠ hero.2 then (1 : ℚ) else 0) else 0) := by
    intro a _
    rw [getD_rangeSingle i a.1 hi]
    by_cases h1 : a.1 = i <;>
      by_cases h2 : (a.2.1 ∉ board ∧ a.2.2 ∉ board ∧ a.2.1 ≠ hero.1 ∧
        a.2.1 ≠ hero.2 ∧ a.2.2 ≠ hero.1 ∧ a.2.2 ≠ hero.2) <;>
      simp [h1, h2]
  rw [List.map_congr_left hpt]
  have ha0 : ((i, (u, v)) : ℕ × ℕ × ℕ) ∈ IDX2HAND.enum :=
    List.mem_enum_iff_getElem?.mpr hget
  have hnd : (IDX2HAND.enum.map Prod.fst).Nodup := by
    rw [List.enum_map_fst]
    exact List.nodup_range _
  exact sum_map_ite_key IDX2HAND.enum Prod.fst
    (fun a => if a.2.1 ∉ board ∧ a.2.2 ∉ board ∧ a.2.1 ≠ hero.1 ∧
        a.2.1 ≠ hero.2 ∧ a.2.2 ≠ hero.1 ∧ a.2.2 ≠ hero.2 then (1 : ℚ) else 0)
    hnd ha0

theorem IDX2HAND_1127 : IDX2HAND[1127]? = some (46, 47) := by
  have h := IDX2HAND_getElem? (show 46 < 47 by decide) (show 47 < 52 by decide)
  rw [show 47 * (47 - 1) / 2 + 46 = 1127 from by norm_num] at h
  exact h

theorem final_p_nil (q : ℕ) : final_p [] q = 0 := by
  unfold final_p
  rw [if_neg (by simp only [List.length_nil]; omega)]

theorem toI32_zero : toI32 0 = 0 := by decide

theorem gen_board_eval_nil (board : List ℕ) (hb : board.length = 5) (x y : ℕ) :
    gen_board_eval [] board [x, y] = 0 := by
  simp only [gen_board_eval, fast_eval, next_p, List.foldl_cons, List.foldl_nil,
    final_p_nil, hb, if_pos]
  exact toI32_zero

theorem leaf_AAKK_char (rd : List ℕ) (b : List ℕ) (hb : b.length = 5)
    {rs : List EquityResult}
    (hok : calculate_leaf_equity rd (rangeSingle 1325) (rangeSingle 1127) b =
      some rs) :
    (∀ r ∈ rs, r.hand_idx = 1325) ∧
    (rs.map (fun r => eqMass r.equity)).sum =
      (if 50 ∈ b ∨ 51 ∈ b then 0 else if 46 ∈ b ∨ 47 ∈ b then 0 else 1) := by
  have hok' := hok
  simp only [calculate_leaf_equity] at hok'
  rw [if_neg (by omega)] at hok'
  cases hscan : scanCombos (sortCombos (gatherCombos rd (rangeSingle 1325)
      (rangeSingle 1127) b)) with
  | none =>
    rw [hscan] at hok'
    exact Option.noConfusion hok'
  | some ss =>
    rw [hscan] at hok'
    have hrs := Option.some_inj.mp hok'
    have hfperm : ((sortCombos (gatherCombos rd (rangeSingle 1325)
          (rangeSingle 1127) b)).filter (fun ci => ci.self_weight ≠ 0)).Perm
        ((gatherCombos rd (rangeSingle 1325) (rangeSingle 1127) b).filter
          (fun ci => ci.self_weight ≠ 0)) :=
      (sortCombos_perm _).filter _
    have hgf : (gatherCombos rd (rangeSingle 1325) (rangeSingle 1127) b).filter
        (fun ci => ci.self_weight ≠ 0) =
        if 50 ∈ b ∨ 51 ∈ b then []
        else [⟨gen_board_eval rd b [50, 51], 1325, 1, 0, (50, 51)⟩] := by
      rw [gather_AA_vs_KK, List.filter_append]
      by_cases hkk : 46 ∈ b ∨ 47 ∈ b <;> by_cases haa : 50 ∈ b ∨ 51 ∈ b <;>
        simp [hkk, haa]
    by_cases haa : 50 ∈ b ∨ 51 ∈ b
    · have hnil : ((sortCombos (gatherCombos rd (rangeSingle 1325)
          (rangeSingle 1127) b)).filter (fun ci => ci.self_weight ≠ 0)) = [] :=
        List.Perm.eq_nil (by rw [hgf, if_pos haa] at hfperm; exact hfperm)
      rw [hnil, List.map_nil] at hrs
      rw [← hrs]
      refine ⟨fun r hr => absurd hr (List.not_mem_nil r), ?_⟩
      rw [if_pos haa]
      simp
    · have hone : ((sortCombos (gatherCombos rd (rangeSingle 1325)
          (rangeSingle 1127) b)).filter (fun ci => ci.self_weight ≠ 0)) =
          [⟨gen_board_eval rd b [50, 51], 1325, 1, 0, (50, 51)⟩] :=
        List.perm_singleton.mp
          (by rw [hgf, if_neg haa] at hfperm; exact hfperm)
      rw [hone, List.map_cons, List.map_nil] at hrs
      constructor
      · intro r hr
        rw [← hrs] at hr
        rcases List.mem_singleton.mp hr with rfl
        rfl
      · rw [← hrs]
        simp only [List.map_cons, List.map_nil, List.sum_cons, List.sum_nil,
          add_zero]
        have hm := leaf_result_mass rd (rangeSingle 1325) (rangeSingle 1127) b
          (rangeSingle_nonneg 1127) hok
          (by rw [← hrs]; exact List.mem_singleton.mpr rfl)
        have hcombo : (scoreCombo ss
            (blockedRows (sortCombos (gatherCombos rd (rangeSingle 1325)
              (rangeSingle 1127) b)))
            (sortCombos (gatherCombos rd (rangeSingle 1325)
              (rangeSingle 1127) b)).length
            ⟨gen_board_eval rd b [50, 51], 1325, 1, 0, (50, 51)⟩).combo =
            (50, 51) := rfl
        rw [hm, hcombo, specVillainMass_single 1127 46 47 b (50, 51)
          IDX2HAND_1127]
        rw [if_neg haa]
        by_cases hkk : 46 ∈ b ∨ 47 ∈ b
        · rw [if_pos hkk, if_neg (by
            rintro ⟨h46, h47, _⟩
            rcases hkk with h | h
            · exact h46 h
            · exact h47 h)]
        · rw [if_neg hkk]
          push_neg at hkk
          rw [if_pos ⟨hkk.1, hkk.2, by decide, by decide, by decide, by decide⟩]

theorem addResults_mass (i : ℕ) (rs : List EquityResult) :
    ∀ acc : ℕ → Equity, (∀ r ∈ rs, r.hand_idx = i) →
      eqMass (addResults acc rs i) =
        eqMass (acc i) + (rs.map (fun r => eqMass r.equity)).sum := by
  induction rs with
  | nil => intro acc _; simp [addResults, eqMass]
  | cons r t ih =>
    intro acc hall
    have hstep : addResults acc (r :: t) =
        addResults (fun j => if j = r.hand_idx then
          ⟨(acc j).win + r.equity.win, (acc j).tie + r.equity.tie,
            (acc j).lose + r.equity.lose⟩ else acc j) t := rfl
    rw [hstep, ih _ (fun x hx => hall x (List.mem_cons_of_mem r hx))]
    have hi : i = r.hand_idx := (hall r (List.mem_cons_self r t)).symm
    rw [if_pos hi]
    simp only [List.map_cons, List.sum_cons, eqMass]
    ring

theorem aggLoop_mass (rd : List ℕ) (hero vs : HoldemRange) (i : ℕ)
    (M : List ℕ → ℚ) (boards : List (List ℕ))
    (hleaf : ∀ b ∈ boards, ∀ rs,
      calculate_leaf_equity rd hero vs b = some rs →
      (∀ r ∈ rs, r.hand_idx = i) ∧
        (rs.map (fun r => eqMass r.equity)).sum = M b) :
    ∀ (acc agg : ℕ → Equity), aggLoop rd hero vs boards acc = some agg →
      eqMass (agg i) = eqMass (acc i) + (boards.map M).sum := by
  induction boards with
  | nil =>
    intro acc agg h
    have : acc = agg := Option.some_inj.mp h
    rw [← this]
    simp
  | cons b t ih =>
    intro acc agg h
    simp only [aggLoop] at h
    cases hlf : calculate_leaf_equity rd hero vs b with
    | none =>
      rw [hlf] at h
      exact Option.noConfusion h
    | some rs =>
      rw [hlf] at h
      obtain ⟨hidx, hmass⟩ := hleaf b (List.mem_cons_self b t) rs hlf
      rw [ih (fun x hx rs' h' => hleaf x (List.mem_cons_of_mem b hx) rs' h')
        _ _ h]
      rw [addResults_mass i rs acc hidx, hmass]
      simp only [List.map_cons, List.sum_cons]
      ring

theorem aggLoop_isSome (rd : List ℕ) (hero vs : HoldemRange)
    (boards : List (List ℕ))
    (hleaf : ∀ b ∈ boards, ∃ rs,
      calculate_leaf_equity rd hero vs b = some rs) :
    ∀ acc : ℕ → Equity, ∃ agg, aggLoop rd hero vs boards acc = some agg := by
  induction boards with
  | nil => intro acc; exact ⟨acc, rfl⟩
  | cons b t ih =>
    intro acc
    obtain ⟨rs, hrs⟩ := hleaf b (List.mem_cons_self b t)
    obtain ⟨agg, hagg⟩ := ih (fun x hx => hleaf x (List.mem_cons_of_mem b hx))
      (addResults acc rs)
    refine ⟨agg, ?_⟩
    simp only [aggLoop]
    rw [hrs]
    exact hagg

set_option maxRecDepth 8000 in
theorem for_each_weighted_single_1325 :
    HoldemRange.for_each_weighted (rangeSingle 1325) = [(1, 1325)] := by
  decide

set_option maxRecDepth 8000 in
theorem from_hand_idx_1325 : HoldemRange.from_hand_idx 1325 = (50, 51) := by
  decide

set_option maxRecDepth 8000 in
theorem runoutBoards3_flop_count :
    (runoutBoards3 [0, 21, 35]).length = 1176 := by
  decide

set_option maxRecDepth 8000 in
theorem runoutBoards3_flop_benign_count :
    (runoutBoards3 [0, 21, 35]).countP
      (fun b => decide (¬ (50 ∈ b ∨ 51 ∈ b) ∧ ¬ (46 ∈ b ∨ 47 ∈ b))) = 990 := by
  decide

theorem equity_AAKK_flop_char (rd : List ℕ) {rs : List EquityResult}
    (hok : calculate_equity_vs_range rd (rangeSingle 1325) (rangeSingle 1127)
      [0, 21, 35] = some (Except.ok rs)) :
    ∃ e : Equity, rs = [⟨(50, 51), 1325, e⟩] ∧ e.win + e.tie + e.lose = 990 := by
  simp only [calculate_equity_vs_range] at hok
  rw [if_neg (by decide), if_neg (by decide), if_pos (by decide)] at hok
  cases hloop : aggLoop rd (rangeSingle 1325) (rangeSingle 1127)
      (runoutBoards3 [0, 21, 35]) (fun _ => ⟨0, 0, 0⟩) with
  | none =>
    rw [hloop] at hok
    exact Option.noConfusion hok
  | some agg =>
    rw [hloop] at hok
    have hout := Option.some_inj.mp hok
    have hrs : (HoldemRange.for_each_weighted (rangeSingle 1325)).map (fun x =>
        (⟨HoldemRange.from_hand_idx x.2, x.2, agg x.2⟩ : EquityResult)) = rs := by
      injection hout
    rw [for_each_weighted_single_1325, List.map_cons, List.map_nil,
      from_hand_idx_1325] at hrs
    refine ⟨agg 1325, hrs.symm, ?_⟩
    have hM := aggLoop_mass rd (rangeSingle 1325) (rangeSingle 1127) 1325
      (fun b => if 50 ∈ b ∨ 51 ∈ b then 0 else if 46 ∈ b ∨ 47 ∈ b then 0 else 1)
      (runoutBoards3 [0, 21, 35]) ?hleaf _ _ hloop
    case hleaf =>
      intro b hbm rs' hrs'
      exact leaf_AAKK_char rd b
        (by rw [runoutBoards3_mem_length hbm]; rfl) hrs'
    have hsum : ((runoutBoards3 [0, 21, 35]).map (fun b =>
        if 50 ∈ b ∨ 51 ∈ b then (0 : ℚ) else
          if 46 ∈ b ∨ 47 ∈ b then 0 else 1)).sum = 990 := by
      have hpt : ∀ b ∈ runoutBoards3 [0, 21, 35],
          (if 50 ∈ b ∨ 51 ∈ b then (0 : ℚ) else
            if 46 ∈ b ∨ 47 ∈ b then 0 else 1) =
          (if ¬ (50 ∈ b ∨ 51 ∈ b) ∧ ¬ (46 ∈ b ∨ 47 ∈ b) then (1 : ℚ) else 0) := by
        intro b _
        by_cases h1 : 50 ∈ b ∨ 51 ∈ b <;> by_cases h2 : 46 ∈ b ∨ 47 ∈ b <;>
          simp [h1, h2]
      rw [List.map_congr_left hpt, sum_map_indicator,
        runoutBoards3_flop_benign_count]
      norm_num
    have hfin : eqMass (agg 1325) = 990 := by
      rw [hM, hsum]
      simp [eqMass]
    simpa [eqMass] using hfin

theorem equity_AAKK_flop_nil_ok :
    ∃ rs, calculate_equity_vs_range [] (rangeSingle 1325) (rangeSingle 1127)
      [0, 21, 35] = some (Except.ok rs) := by
  have hboards : ∀ b ∈ runoutBoards3 [0, 21, 35], ∃ rs,
      calculate_leaf_equity [] (rangeSingle 1325) (rangeSingle 1127) b =
        some rs := by
    intro b hbm
    have hb5 : b.length = 5 := by rw [runoutBoards3_mem_length hbm]; rfl
    apply leaf_isSome _ _ _ _ ⟨by omega, by omega⟩
    intro ci hci
    have hciG : ci ∈ gatherCombos [] (rangeSingle 1325) (rangeSingle 1127) b :=
      (sortCombos_perm _).mem_iff.mp hci
    rw [gather_AA_vs_KK] at hciG
    rcases List.mem_append.mp hciG with h | h
    · by_cases hk : 46 ∈ b ∨ 47 ∈ b
      · rw [if_pos hk] at h
        cases h
      · rw [if_neg hk] at h
        rcases List.mem_singleton.mp h with rfl
        show gen_board_eval [] b [46, 47] ≠ -1
        rw [gen_board_eval_nil b hb5]
        decide
    · by_cases hk : 50 ∈ b ∨ 51 ∈ b
      · rw [if_pos hk] at h
        cases h
      · rw [if_neg hk] at h
        rcases List.mem_singleton.mp h with rfl
        show gen_board_eval [] b [50, 51] ≠ -1
        rw [gen_board_eval_nil b hb5]
        decide
  obtain ⟨agg, hagg⟩ := aggLoop_isSome [] (rangeSingle 1325) (rangeSingle 1127)
    (runoutBoards3 [0, 21, 35]) hboards (fun _ => ⟨0, 0, 0⟩)
  refine ⟨(HoldemRange.for_each_weighted (rangeSingle 1325)).map (fun x =>
    ⟨HoldemRange.from_hand_idx x.2, x.2, agg x.2⟩), ?_⟩
  simp only [calculate_equity_vs_range]
  rw [if_neg (by decide), if_neg (by decide), if_pos (by decide), hagg]

/-! ## Claim C3 -/

/-- Claim C3 (amended): the Hold'em aggregator on flop `2c 7d Ts` with hero
`{AsAh : 1.0}` and villain `{KsKh : 1.0}` enumerates 1176 turn/river runouts,
but the summed output for the hero combo satisfies
`win + tie + lose = 990 = C(45,2)`, not 1176: runouts containing As or Ah
block the hero combo entirely, and runouts containing Ks or Kh block the only
villain combo, so only the 990 runouts over the other 45 unseen cards
contribute villain mass — exactly what per-runout mass conservation (C1)
dictates. -/
theorem c3_flop_aggregate_mass (rd : List ℕ) (rs : List EquityResult)
    (hok : calculate_equity_vs_range rd (rangeSingle 1325) (rangeSingle 1127)
      [0, 21, 35] = some (Except.ok rs)) :
    (runoutBoards3 [0, 21, 35]).length = 1176 ∧
    ∃ e : Equity, rs = [⟨(50, 51), 1325, e⟩] ∧ e.win + e.tie + e.lose = 990 :=
  ⟨runoutBoards3_flop_count, equity_AAKK_flop_char rd hok⟩

/-- Counterexample for C3 as stated: on the empty rank table the aggregate
mass is 990, not 1176. -/
theorem c3_flop_aggregate_mass_counterexample :
    ∃ rs e, calculate_equity_vs_range [] (rangeSingle 1325) (rangeSingle 1127)
      [0, 21, 35] = some (Except.ok rs) ∧ rs = [⟨(50, 51), 1325, e⟩] ∧
      e.win + e.tie + e.lose = 990 ∧ (990 : ℚ) ≠ 1176 := by
  obtain ⟨rs, hok⟩ := equity_AAKK_flop_nil_ok
  obtain ⟨e, hrs, hm⟩ := equity_AAKK_flop_char [] hok
  exact ⟨rs, e, hok, hrs, hm, by norm_num⟩

/-- Witness for C3, discharging the success hypothesis at the empty table. -/
theorem c3_flop_aggregate_mass_witness :
    ∃ rs, calculate_equity_vs_range [] (rangeSingle 1325) (rangeSingle 1127)
      [0, 21, 35] = some (Except.ok rs) ∧
      ((runoutBoards3 [0, 21, 35]).length = 1176 ∧
        ∃ e : Equity, rs = [⟨(50, 51), 1325, e⟩] ∧
          e.win + e.tie + e.lose = 990) := by
  obtain ⟨rs, hok⟩ := equity_AAKK_flop_nil_ok
  exact ⟨rs, hok, c3_flop_aggregate_mass [] rs hok⟩
